import Mathlib

/-!
Shallow embedding of the thread-safe arena allocator in
`src/go/protobuf-master/src/google/protobuf/arena.cc`.

Machine addresses are modelled as `Nat`.  A block of memory is identified
by the numeric address of its first byte (`id`); offsets inside a block
(`ptr_`, `limit_`) are kept relative to the block base.  The observable
side effects - cleanup callback invocations, block deallocations, metrics
collector calls - are recorded in an event trace.  The model is the
sequential semantics of the arena: the thread-local fast-path cache only
short-circuits the shard lookup of `GetSerialArenaFallback`, so every
access is modelled as the list search keyed by the owner token.
-/

namespace ArenaCc

/-- `SerialArena::kBlockHeaderSize` (declared in the missing `arena_impl.h`).
Modelled from the spec: a block header holds the `next` link, the cleanup
boundary pointer and the size, 24 bytes on a 64-bit target, a multiple of 8. -/
def kBlockHeaderSize : Nat := 24

/-- `ThreadSafeArena::kSerialArenaSize` (declared in the missing `arena_impl.h`).
Modelled from the spec: the shard structure is placed inside the first block
immediately after the block header; its aligned size, 64 bytes here, any
multiple of 8 large enough for the shard fields works. -/
def kSerialArenaSize : Nat := 64

/-- `SerialArena::kCleanupSize` (declared in the missing `arena_impl.h`).
Modelled from the spec: a cleanup record is a `(elem, fn)` pair of pointers,
16 bytes. -/
def kCleanupSize : Nat := 16

/-- `AlignUpTo8(sizeof(AllocationPolicy))`, the arena-hosted policy record
size.  Modelled from the spec: five word-sized fields, 40 bytes. -/
def kAPSize : Nat := 40

/-- `internal::AlignUpTo8` (missing `arena_impl.h`).  Modelled from the spec:
all allocations are rounded up to 8 bytes. -/
def alignUpTo8 (n : Nat) : Nat := (n + 7) / 8 * 8

/-- `size & static_cast<size_t>(-8)`: the aligned high boundary of a block
(arena.cc:115, arena.cc:187). -/
def align8down (n : Nat) : Nat := n / 8 * 8

/-- `AllocationPolicy` (declared in the missing `arena_impl.h`).  Modelled
from the spec: growth bounds plus optional block allocator, deallocator and
metrics collector hooks; hooks and the collector are opaque handles, kept
here as numeric identities.  Defaults are the implementation-chosen
`kDefaultStartBlockSize = 256` and `kDefaultMaxBlockSize = 8192`. -/
structure AllocationPolicy where
  start_block_size : Nat := 256
  max_block_size : Nat := 8192
  block_alloc : Option Nat := none
  block_dealloc : Option Nat := none
  metrics_collector : Option Nat := none
deriving DecidableEq, Repr

/-- `SerialArena::Memory`: a pointer (base address, 0 means null) and a size. -/
structure Memory where
  id : Nat
  size : Nat
deriving DecidableEq, Repr

/-- `SerialArena::CleanupNode`: an element pointer and a cleanup function,
both opaque, kept as numeric identities. -/
structure CleanupNode where
  elem : Nat
  cleanup : Nat
deriving DecidableEq, Repr

/-- `SerialArena::Block`.  `id` is the base address, `size` the total byte
length including the header.  `start` is the synced cleanup boundary
(`Block::start`), an offset from the base; it is only meaningful once the
block stops being the head (arena.cc:154) or when `CleanupList` syncs the
head (arena.cc:184).  `nodes` lists the cleanup records stored at the high
end of the block, lowest address (most recently registered) first; the
record at position `j` sits at offset `start + kCleanupSize * j` once the
boundary is synced. -/
structure Block where
  id : Nat
  size : Nat
  start : Nat := 0
  nodes : List CleanupNode := []
deriving DecidableEq, Repr

/-- Observable side effects of arena operations. -/
inductive Event where
  /-- `it->cleanup(it->elem)` (arena.cc:192). -/
  | cleanup (elem fn : Nat) : Event
  /-- a block handed to `block_dealloc` or `operator delete`
  (arena.cc:94-102). -/
  | dealloc (id size : Nat) : Event
  /-- `collector->OnReset(space_allocated)` (arena.cc:341). -/
  | onReset (collector bytes : Nat) : Event
  /-- `collector->OnDestroy(space_allocated)` (arena.cc:309). -/
  | onDestroy (collector bytes : Nat) : Event
deriving DecidableEq, Repr

/-- Whether an event is a cleanup callback invocation. -/
def Event.isCleanup : Event → Bool
  | .cleanup _ _ => true
  | _ => false

/-- Whether an event is a block deallocation. -/
def Event.isDealloc : Event → Bool
  | .dealloc _ _ => true
  | _ => false

/-- `SerialArena` (fields declared in the missing `arena_impl.h`): the head
block, the chain of older blocks (`tail`, newest first, reached through
`Block::next` in the source), the bump pointer and limit as offsets into the
head block, and the space accounting fields. -/
structure SerialArena where
  owner : Nat
  head : Block
  tail : List Block := []
  ptrOfs : Nat
  limitOfs : Nat
  space_allocated : Nat
  space_used : Nat := 0
deriving DecidableEq, Repr

/-- The block chain of a shard, newest first, as walked through
`head_` and `Block::next`. -/
def SerialArena.blocks (s : SerialArena) : List Block := s.head :: s.tail

/-- The size computed by `AllocateMemory` (arena.cc:56-71): double the last
block size capped by `max_block_size` when a previous block exists, else
`start_block_size`, then raised to at least `kBlockHeaderSize + min_bytes`.
The `GOOGLE_CHECK_LE` overflow guard (arena.cc:69) is vacuous over `Nat`. -/
def AllocateMemorySize (policy_ptr : Option AllocationPolicy)
    (last_size min_bytes : Nat) : Nat :=
  let policy := policy_ptr.getD {}
  let size := if last_size ≠ 0 then min (2 * last_size) policy.max_block_size
              else policy.start_block_size
  max size (kBlockHeaderSize + min_bytes)

/-- `AllocateMemory` (arena.cc:56-80).  The backing allocator (custom
`block_alloc` hook or `operator new`) is modelled as a fresh-address source:
`fresh` is the next unused base address, bumped on every allocation. -/
def AllocateMemory (policy_ptr : Option AllocationPolicy)
    (last_size min_bytes fresh : Nat) : Memory × Nat :=
  (⟨fresh, AllocateMemorySize policy_ptr last_size min_bytes⟩, fresh + 1)

/-- `SerialArena::SerialArena` together with `SerialArena::New`
(arena.cc:111-123): places a block header and the shard structure at the
base of `mem`, points `ptr_` past both and `limit_` at the aligned high
boundary `b->Pointer(b->size & -8)`. -/
def SerialArena.New (mem : Memory) (owner : Nat) : SerialArena :=
  { owner := owner
    head := { id := mem.id, size := mem.size }
    tail := []
    ptrOfs := kBlockHeaderSize + kSerialArenaSize
    limitOfs := align8down mem.size
    space_allocated := mem.size
    space_used := 0 }

/-- `SerialArena::AllocateNewBlock` (arena.cc:152-172): syncs the old head's
cleanup boundary to `limit_`, accumulates `space_used_`, obtains memory
sized by `AllocateMemory` from the old head's size, links the new head and
resets `ptr_` to just past the header and `limit_` to
`head_->Pointer(head_->size)` (the full size, not the aligned boundary). -/
def SerialArena.AllocateNewBlock (s : SerialArena) (n : Nat)
    (policy : Option AllocationPolicy) (fresh : Nat) : SerialArena × Nat :=
  let oldHead := { s.head with start := s.limitOfs }
  let (mem, fresh') := AllocateMemory policy s.head.size n fresh
  ({ s with
      head := { id := mem.id, size := mem.size }
      tail := oldHead :: s.tail
      ptrOfs := kBlockHeaderSize
      limitOfs := mem.size
      space_allocated := s.space_allocated + mem.size
      space_used := s.space_used + (s.ptrOfs - kBlockHeaderSize) }, fresh')

/-- `SerialArena::AllocateAligned` (missing `arena_impl.h`, fallback at
arena.cc:145-150).  Modelled from the spec: `n` is already a multiple of 8;
if `alloc_ptr + n ≤ alloc_limit` the pointer is bumped, otherwise a new
block sized for `n` is installed and the allocation is served from it (the
fresh block always fits `n`, since its size is at least
`kBlockHeaderSize + n`).  Returns `(block base, offset)` of the allocation. -/
def SerialArena.AllocateAligned (s : SerialArena) (n : Nat)
    (policy : Option AllocationPolicy) (fresh : Nat) :
    (Nat × Nat) × SerialArena × Nat :=
  if s.ptrOfs + n ≤ s.limitOfs then
    ((s.head.id, s.ptrOfs), { s with ptrOfs := s.ptrOfs + n }, fresh)
  else
    let (s', fresh') := s.AllocateNewBlock n policy fresh
    ((s'.head.id, s'.ptrOfs), { s' with ptrOfs := s'.ptrOfs + n }, fresh')

/-- `SerialArena::AllocateAlignedWithCleanup` (missing `arena_impl.h`,
fallback at arena.cc:137-143).  Modelled from the spec: like
`AllocateAligned` but also reserves one cleanup record slot from the top of
the block (`limit_ -= kCleanupSize`) and writes `{elem, fn}` into it; when
either part does not fit, a block sized for `n + kCleanupSize` is added
first.  The record written last sits at the lowest address, so it is
prepended to `nodes`. -/
def SerialArena.AllocateAlignedWithCleanup (s : SerialArena)
    (n elem fn : Nat) (policy : Option AllocationPolicy) (fresh : Nat) :
    (Nat × Nat) × SerialArena × Nat :=
  if s.ptrOfs + n + kCleanupSize ≤ s.limitOfs then
    ((s.head.id, s.ptrOfs),
     { s with
        ptrOfs := s.ptrOfs + n
        limitOfs := s.limitOfs - kCleanupSize
        head := { s.head with nodes := ⟨elem, fn⟩ :: s.head.nodes } }, fresh)
  else
    let (s', fresh') := s.AllocateNewBlock (n + kCleanupSize) policy fresh
    ((s'.head.id, s'.ptrOfs),
     { s' with
        ptrOfs := s'.ptrOfs + n
        limitOfs := s'.limitOfs - kCleanupSize
        head := { s'.head with nodes := ⟨elem, fn⟩ :: s'.head.nodes } }, fresh')

/-- `SerialArena::AddCleanup` (missing `arena_impl.h`).  Modelled from the
spec: reserves a cleanup slot (growing if necessary) and writes `{elem, fn}`;
no payload bytes are requested. -/
def SerialArena.AddCleanup (s : SerialArena) (elem fn : Nat)
    (policy : Option AllocationPolicy) (fresh : Nat) : SerialArena × Nat :=
  let (_, s', fresh') := s.AllocateAlignedWithCleanup 0 elem fn policy fresh
  (s', fresh')

/-- `SerialArena::MaybeAllocateAligned` (missing `arena_impl.h`).  Modelled
from the spec: the non-growing variant, succeeds only if the head has room. -/
def SerialArena.MaybeAllocateAligned (s : SerialArena) (n : Nat) :
    Option ((Nat × Nat) × SerialArena) :=
  if s.ptrOfs + n ≤ s.limitOfs then
    some ((s.head.id, s.ptrOfs), { s with ptrOfs := s.ptrOfs + n })
  else none

/-- The cleanup records of one block actually invoked by
`SerialArena::CleanupList` (arena.cc:185-194), given a synced `start`:
`limit` is the aligned high boundary `b->Pointer(b->size & -8)`,
`num = limit - it` is the pointer difference in record units (an exact
truncated division, as compiled), the loop runs only `if (num > 0)` and then
walks record slots from `start` while `it < limit`, i.e. over
ceil((limit - start) / kCleanupSize) slots, which hold the stored records
newest first. -/
def Block.cleanupRun (b : Block) : List CleanupNode :=
  let lim := align8down b.size
  let num := (lim - b.start) / kCleanupSize
  if 0 < num then
    b.nodes.take ((lim - b.start + (kCleanupSize - 1)) / kCleanupSize)
  else []

/-- The block chain of a shard with the head's cleanup boundary synced to
`limit_`, as `SerialArena::CleanupList` sees it after the sync at
arena.cc:184. -/
def SerialArena.blocksSynced (s : SerialArena) : List Block :=
  { s.head with start := s.limitOfs } :: s.tail

/-- `SerialArena::CleanupList` (arena.cc:182-197): syncs the head's boundary
to `limit_`, then walks blocks from the head backward, invoking each block's
records in the order encountered (lowest address, i.e. newest, first). -/
def SerialArena.CleanupList (s : SerialArena) : List Event :=
  (s.blocksSynced.map (fun b =>
    b.cleanupRun.map (fun r => Event.cleanup r.elem r.cleanup))).flatten

/-- The loop of `SerialArena::Free` (arena.cc:125-135): deallocates every
block from the head down except the oldest, and returns the oldest block's
memory.  Produces the dealloc events in loop order, the bytes handed to the
deallocator (`GetDeallocator` adds `mem.size` on each call, arena.cc:103),
and the returned memory. -/
def SerialArena.freeLoop : Block → List Block → List Event × Nat × Memory
  | b, [] => ([], 0, ⟨b.id, b.size⟩)
  | b, b' :: rest =>
    let (evs, acc, mem) := SerialArena.freeLoop b' rest
    (Event.dealloc b.id b.size :: evs, b.size + acc, mem)

/-- `SerialArena::Free` (arena.cc:125-135) on the whole block chain. -/
def SerialArena.FreeOp (s : SerialArena) : List Event × Nat × Memory :=
  SerialArena.freeLoop s.head s.tail

/-- `ThreadSafeArena` (fields declared in the missing `arena_impl.h`):
`threads` is the shard list reached from `threads_` through `next`, newest
push first.  `userOwned` is the `kUserOwnedInitialBlock` bit and
`alloc_policy` the pointer half of the tagged `alloc_policy_` word, the
policy record kept by value (it is immutable once installed).
`recordAllocs` is the `kRecordAllocs` bit of `tag_and_id_`; the remaining
lifecycle-id bits only drive the thread-local cache, which in this
sequential model always resolves through the shard-list search.
`checkFailed` records that the `GOOGLE_LOG(FATAL)` sink was hit
(arena.cc:257). -/
structure ThreadSafeArena where
  recordAllocs : Bool := false
  userOwned : Bool := false
  alloc_policy : Option AllocationPolicy := none
  threads : List SerialArena := []
  checkFailed : Bool := false
deriving DecidableEq, Repr

/-- A region before any initialization. -/
def ThreadSafeArena.empty : ThreadSafeArena := {}

/-- `ThreadSafeArena::Init` (arena.cc:264-282): picks a fresh lifecycle id
(not modelled, see `ThreadSafeArena`), stores the record-allocs flag and
clears the hint and the shard list.  `alloc_policy_` is not touched. -/
def ThreadSafeArena.Init (A : ThreadSafeArena) (record_allocs : Bool) :
    ThreadSafeArena :=
  { A with recordAllocs := record_allocs, threads := [] }

/-- `ThreadSafeArena::SetInitialBlock` (arena.cc:284-289): places a shard
owned by the calling thread (`tcOwner` stands for `&thread_cache()`) at the
start of `mem` and makes it the whole shard list. -/
def ThreadSafeArena.SetInitialBlock (A : ThreadSafeArena) (mem : Memory)
    (tcOwner : Nat) : ThreadSafeArena :=
  { A with threads := [SerialArena.New mem tcOwner] }

/-- `ThreadSafeArena::InitializeFrom` (arena.cc:220-229): `Init(false)`,
then install `mem` as the user-owned initial block if it is non-null
(`addr ≠ 0`) and large enough for a block header plus a shard.  Pointer
alignment is only checked by a debug assertion (`GOOGLE_DCHECK_EQ`,
arena.cc:221), it does not gate installation. -/
def ThreadSafeArena.InitializeFrom (A : ThreadSafeArena)
    (addr size tcOwner : Nat) : ThreadSafeArena :=
  let A := A.Init false
  if addr ≠ 0 ∧ kBlockHeaderSize + kSerialArenaSize ≤ size then
    { A.SetInitialBlock ⟨addr, size⟩ tcOwner with userOwned := true }
  else A

/-- `ThreadSafeArena::InitializeWithPolicy` (arena.cc:231-262):
`Init(record_allocs)`; the supplied block must additionally fit the policy
record, else a fresh block of at least `kMinimumSize` is allocated through
the policy; the shard is installed, the policy record is carved out of it
with `MaybeAllocateAligned` (which cannot fail, else the fatal sink fires)
and the tagged policy word is set. -/
def ThreadSafeArena.InitializeWithPolicy (A : ThreadSafeArena)
    (addr size : Nat) (record_allocs : Bool) (policy : AllocationPolicy)
    (tcOwner fresh : Nat) : ThreadSafeArena × Nat :=
  let A := A.Init record_allocs
  let kMinimumSize := kBlockHeaderSize + kSerialArenaSize + kAPSize
  let (A, mem, fresh') :=
    if addr ≠ 0 ∧ kMinimumSize ≤ size then
      ({ A with userOwned := true }, (⟨addr, size⟩ : Memory), fresh)
    else
      let (tmp, fresh') := AllocateMemory (some policy) 0 kMinimumSize fresh
      ({ A with userOwned := false }, tmp, fresh')
  let A := A.SetInitialBlock mem tcOwner
  match A.threads with
  | [] => ({ A with checkFailed := true }, fresh')
  | sa :: rest =>
    match sa.MaybeAllocateAligned kAPSize with
    | none => ({ A with checkFailed := true }, fresh')
    | some (_, sa') =>
      ({ A with threads := sa' :: rest, alloc_policy := some policy }, fresh')

/-- `ThreadSafeArena::GetSerialArenaFallback` (arena.cc:434-459): search the
shard list for this thread's shard; when absent, allocate its first block,
place a new shard in it and push it at the front of the list. -/
def ThreadSafeArena.GetSerialArenaFallback (A : ThreadSafeArena)
    (me fresh : Nat) : SerialArena × ThreadSafeArena × Nat :=
  match A.threads.find? (fun sa => sa.owner == me) with
  | some sa => (sa, A, fresh)
  | none =>
    let (mem, fresh') := AllocateMemory A.alloc_policy 0 kSerialArenaSize fresh
    let sa := SerialArena.New mem me
    (sa, { A with threads := sa :: A.threads }, fresh')

/-- Run a shard-level operation on the shard owned by `me`, keeping its
position in the list, or return `none` when `me` owns no shard.  This is the
in-place mutation of the shard found by `GetSerialArenaFast` /
`GetSerialArenaFallback`. -/
def withOwner {α : Type} (me : Nat)
    (f : SerialArena → α × SerialArena × Nat) :
    List SerialArena → Option (α × List SerialArena × Nat)
  | [] => none
  | sa :: rest =>
    if sa.owner == me then
      let (a, sa', fr) := f sa
      some (a, sa' :: rest, fr)
    else
      match withOwner me f rest with
      | none => none
      | some (a, rest', fr) => some (a, sa :: rest', fr)

/-- `ThreadSafeArena::AllocateAligned` (missing `arena.h`, fallback at
arena.cc:377-389).  Modelled from the spec: rounds `n` up to 8, then
allocates from the calling thread's shard, creating it first when absent
(`GetSerialArenaFallback`).  The `record_allocs` metrics notification is
not modelled. -/
def ThreadSafeArena.AllocateAligned (A : ThreadSafeArena)
    (me n fresh : Nat) : (Nat × Nat) × ThreadSafeArena × Nat :=
  let n8 := alignUpTo8 n
  match withOwner me (fun sa => sa.AllocateAligned n8 A.alloc_policy fresh)
      A.threads with
  | some (ptr, ts, fr) => (ptr, { A with threads := ts }, fr)
  | none =>
    let (mem, fresh') := AllocateMemory A.alloc_policy 0 kSerialArenaSize fresh
    let sa := SerialArena.New mem me
    let (ptr, sa', fr) := sa.AllocateAligned n8 A.alloc_policy fresh'
    (ptr, { A with threads := sa' :: A.threads }, fr)

/-- `ThreadSafeArena::AllocateAlignedWithCleanup` (arena.cc:357-366,
391-404), with the caller immediately writing `{elem, fn}` into the
returned slot.  Modelled from the spec for the dispatch and rounding. -/
def ThreadSafeArena.AllocateAlignedWithCleanup (A : ThreadSafeArena)
    (me n elem fn fresh : Nat) : (Nat × Nat) × ThreadSafeArena × Nat :=
  let n8 := alignUpTo8 n
  match withOwner me
      (fun sa => sa.AllocateAlignedWithCleanup n8 elem fn A.alloc_policy fresh)
      A.threads with
  | some (ptr, ts, fr) => (ptr, { A with threads := ts }, fr)
  | none =>
    let (mem, fresh') := AllocateMemory A.alloc_policy 0 kSerialArenaSize fresh
    let sa := SerialArena.New mem me
    let (ptr, sa', fr) :=
      sa.AllocateAlignedWithCleanup n8 elem fn A.alloc_policy fresh'
    (ptr, { A with threads := sa' :: A.threads }, fr)

/-- `ThreadSafeArena::AddCleanup` (arena.cc:368-375, 406-410). -/
def ThreadSafeArena.AddCleanup (A : ThreadSafeArena)
    (me elem fn fresh : Nat) : ThreadSafeArena × Nat :=
  match withOwner me
      (fun sa =>
        let (sa', fr) := sa.AddCleanup elem fn A.alloc_policy fresh
        ((), sa', fr))
      A.threads with
  | some (_, ts, fr) => ({ A with threads := ts }, fr)
  | none =>
    let (mem, fresh') := AllocateMemory A.alloc_policy 0 kSerialArenaSize fresh
    let sa := SerialArena.New mem me
    let (sa', fr) := sa.AddCleanup elem fn A.alloc_policy fresh'
    ({ A with threads := sa' :: A.threads }, fr)

/-- `ThreadSafeArena::CleanupList` (arena.cc:430-432): run every shard's
cleanup list, in shard-list order. -/
def ThreadSafeArena.CleanupList (A : ThreadSafeArena) : List Event :=
  (A.threads.map SerialArena.CleanupList).flatten

/-- The loop of `ThreadSafeArena::Free` (arena.cc:312-320): for each shard,
deallocate the memory retained from the previous shard (skipping the null
initial value), then let the shard free its non-oldest blocks and retain its
oldest. -/
def ThreadSafeArena.freeLoop :
    List SerialArena → Memory → List Event × Nat × Memory
  | [], mem => ([], 0, mem)
  | sa :: rest, mem =>
    let pre : List Event :=
      if mem.id ≠ 0 then [Event.dealloc mem.id mem.size] else []
    let preAcc := if mem.id ≠ 0 then mem.size else 0
    let (evs₁, acc₁, mem₁) := sa.FreeOp
    let (evs₂, acc₂, mem₂) := ThreadSafeArena.freeLoop rest mem₁
    (pre ++ evs₁ ++ evs₂, preAcc + acc₁ + acc₂, mem₂)

/-- `ThreadSafeArena::Free` (arena.cc:312-320). -/
def ThreadSafeArena.FreeOp (A : ThreadSafeArena) : List Event × Nat × Memory :=
  ThreadSafeArena.freeLoop A.threads ⟨0, 0⟩

/-- `ThreadSafeArena::Reset` (arena.cc:322-355).  Returns the bytes
previously held, the event trace of the operation, the re-initialized
region and the new fresh-address counter.  `tcOwner` identifies the calling
thread. -/
def ThreadSafeArena.Reset (A : ThreadSafeArena) (tcOwner fresh : Nat) :
    Nat × List Event × ThreadSafeArena × Nat :=
  let cleanEvs := A.CleanupList
  let (freeEvs, space₀, mem) := A.FreeOp
  match A.alloc_policy with
  | some saved =>
    let (evs₂, space, mem') :=
      if A.userOwned then ([], space₀ + mem.size, mem)
      else ([Event.dealloc mem.id mem.size], space₀ + mem.size,
            (⟨0, 0⟩ : Memory))
    let resetEvs := match saved.metrics_collector with
      | some c => [Event.onReset c space]
      | none => []
    let (A', fresh') := A.InitializeWithPolicy mem'.id mem'.size
      A.recordAllocs saved tcOwner fresh
    (space, cleanEvs ++ freeEvs ++ evs₂ ++ resetEvs, A', fresh')
  | none =>
    if A.userOwned then
      (space₀ + mem.size, cleanEvs ++ freeEvs,
       A.InitializeFrom mem.id mem.size tcOwner, fresh)
    else
      (space₀ + mem.size,
       cleanEvs ++ freeEvs ++ [Event.dealloc mem.id mem.size],
       A.Init false, fresh)

/-- `ThreadSafeArena::~ThreadSafeArena` (arena.cc:291-310).  Returns the
byte total handed to `OnDestroy` and the event trace. -/
def ThreadSafeArena.Destroy (A : ThreadSafeArena) : Nat × List Event :=
  let cleanEvs := A.CleanupList
  let (freeEvs, space₀, mem) := A.FreeOp
  let collector := A.alloc_policy.bind (fun p => p.metrics_collector)
  let (evs₂, space) :=
    if A.userOwned then ([], space₀ + mem.size)
    else ([Event.dealloc mem.id mem.size], space₀ + mem.size)
  let destroyEvs := match collector with
    | some c => [Event.onDestroy c space]
    | none => []
  (space, cleanEvs ++ freeEvs ++ evs₂ ++ destroyEvs)

/-- A user-level operation on a region, for reachability arguments.
`me` / `tcOwner` are thread identity tokens. -/
inductive ArenaOp where
  | alloc (me n : Nat) : ArenaOp
  | allocCleanup (me n elem fn : Nat) : ArenaOp
  | addCleanup (me elem fn : Nat) : ArenaOp
  | reset (tcOwner : Nat) : ArenaOp
deriving DecidableEq, Repr

/-- A region together with the fresh-address counter of the backing
allocator and the accumulated event trace. -/
structure World where
  arena : ThreadSafeArena
  fresh : Nat
  events : List Event := []
deriving DecidableEq, Repr

/-- One user-level operation. -/
def World.step (w : World) : ArenaOp → World
  | .alloc me n =>
    let (_, A, f) := w.arena.AllocateAligned me n w.fresh
    { w with arena := A, fresh := f }
  | .allocCleanup me n elem fn =>
    let (_, A, f) := w.arena.AllocateAlignedWithCleanup me n elem fn w.fresh
    { w with arena := A, fresh := f }
  | .addCleanup me elem fn =>
    let (A, f) := w.arena.AddCleanup me elem fn w.fresh
    { w with arena := A, fresh := f }
  | .reset tcOwner =>
    let (_, evs, A, f) := w.arena.Reset tcOwner w.fresh
    { arena := A, fresh := f, events := w.events ++ evs }

/-- Run a sequence of user-level operations. -/
def World.run (w : World) (ops : List ArenaOp) : World :=
  ops.foldl World.step w

/-- The memory a block occupies, as handed to a deallocator. -/
def memOfBlock (b : Block) : Memory := ⟨b.id, b.size⟩

/-- The memories of a shard's blocks, newest first. -/
def SerialArena.mems (s : SerialArena) : List Memory := s.blocks.map memOfBlock

/-- The memories of all blocks of a shard list, in shard-list order. -/
def memsOf (shards : List SerialArena) : List Memory :=
  (shards.map SerialArena.mems).flatten

/-- The memories of every block a region holds. -/
def allMems (A : ThreadSafeArena) : List Memory := memsOf A.threads

/-- The total byte count of every block a region holds. -/
def totalBlockBytes (A : ThreadSafeArena) : Nat :=
  ((allMems A).map Memory.size).sum

/-- The cleanup records of a block in registration order (oldest first).
Each registration writes its record at the next lower address of the
block's cleanup region, and `nodes` lists the region bottom-up, so the
registration order is the reverse of `nodes`. -/
def Block.registrationOrder (b : Block) : List CleanupNode := b.nodes.reverse

/-- Well-formedness of a block's cleanup region as `CleanupList` walks it:
the size is a multiple of 8 and the synced boundary sits exactly
`kCleanupSize * nodes.length` below the aligned high boundary, no lower
than the header.  Every block whose installed size is a multiple of 8
satisfies this along any execution; a block installed by growth with a size
that is not a multiple of 8 violates it. -/
def Block.wfC (b : Block) : Prop :=
  8 ∣ b.size ∧
  b.start + kCleanupSize * b.nodes.length = align8down b.size ∧
  kBlockHeaderSize ≤ b.start

instance (b : Block) : Decidable b.wfC := by
  unfold Block.wfC; infer_instance

/-- Well-formedness of a whole shard's cleanup regions. -/
def SerialArena.wfCleanup (s : SerialArena) : Prop :=
  ∀ b ∈ s.blocksSynced, b.wfC

instance (s : SerialArena) : Decidable s.wfCleanup := by
  unfold SerialArena.wfCleanup; infer_instance

/-- Iterated shard growth: one `AllocateNewBlock` per request. -/
def growSeq (pol : AllocationPolicy) (s : SerialArena) (reqs : List Nat)
    (fresh : Nat) : SerialArena × Nat :=
  reqs.foldl (fun sf n => sf.1.AllocateNewBlock n (some pol) sf.2) (s, fresh)

/-- A placeholder shard used as the default of list lookups in concrete
statements; never reachable in the scenarios below. -/
def dummyShard : SerialArena := SerialArena.New ⟨1, 88⟩ 0

/-- Invariant tying a region built over a user-owned initial block at
address `addr` of `size` bytes to its later states: the user bit stays set,
a region that carries a policy has a block big enough for the policy
record to be re-accepted on `Reset`, the fresh-address counter stays above
`addr`, the user block is the last block of the last shard and every other
block sits at a higher address, and no deallocation so far touched
`addr`. -/
def InvC3 (addr size : Nat) (w : World) : Prop :=
  w.arena.userOwned = true ∧
  (w.arena.alloc_policy = none
    ∨ kBlockHeaderSize + kSerialArenaSize + kAPSize ≤ size) ∧
  addr < w.fresh ∧
  (∃ ms, allMems w.arena = ms ++ [⟨addr, size⟩] ∧ ∀ m ∈ ms, addr < m.id) ∧
  (∀ i sz, Event.dealloc i sz ∈ w.events → i ≠ addr)

/-- The single shard produced by an accepted `InitializeWithPolicy`
(arena.cc:243-250): the user block's shard with the `kAPSize` policy
record carved out of it by `MaybeAllocateAligned`. -/
def policyShard (addr size tc : Nat) : SerialArena :=
  { SerialArena.New ⟨addr, size⟩ tc with
      ptrOfs := kBlockHeaderSize + kSerialArenaSize + kAPSize }

/-- A region over a 2048-byte user block with cleanups registered in two
blocks: two records in the user block, then a 2000-byte allocation forces a
4096-byte growth block, then one more record lands in the new block. -/
def wUserA : World :=
  World.run ⟨ThreadSafeArena.empty.InitializeFrom 8 2048 1, 9, []⟩
    [.addCleanup 1 11 1, .addCleanup 1 12 1, .alloc 1 2000, .addCleanup 1 13 1]

/-- The single shard of `wUserA`. -/
def sUserA : SerialArena := wUserA.arena.threads.getLastD dummyShard

/-- A region over a user block of 2049 bytes (not a multiple of 8); a
2000-byte allocation forces a growth block of size 4098, also not a
multiple of 8. -/
def wMisA : World :=
  World.run ⟨ThreadSafeArena.empty.InitializeFrom 8 2049 1, 100, []⟩
    [.alloc 1 2000]

/-- `wMisA` after additionally registering one cleanup record, which lands
in the misaligned growth block. -/
def wMisB : World :=
  World.run ⟨ThreadSafeArena.empty.InitializeFrom 8 2049 1, 100, []⟩
    [.alloc 1 2000, .addCleanup 1 7 9]

/-- The single shard of `wMisA`. -/
def sMisA : SerialArena := wMisA.arena.threads.getLastD dummyShard

/-- The single shard of `wMisB`. -/
def sMisB : SerialArena := wMisB.arena.threads.getLastD dummyShard

/-- A region with the default policy (start 256, max 8192) and no initial
block; a 1000-byte allocation raises the first growth block to 1024 bytes,
and the following 8-byte allocation doubles from there to 2048. -/
def wPolA : World :=
  World.run
    ⟨(ThreadSafeArena.empty.InitializeWithPolicy 0 0 false {} 1 5000).1,
     (ThreadSafeArena.empty.InitializeWithPolicy 0 0 false {} 1 5000).2, []⟩
    [.alloc 1 1000, .alloc 1 8]

/-- The single shard of `wPolA`. -/
def sPolA : SerialArena := wPolA.arena.threads.getLastD dummyShard

/-- A default-constructed region (no policy, no initial block) whose single
shard was created lazily by an allocation. -/
def wDefA : World :=
  World.run ⟨ThreadSafeArena.empty.InitializeFrom 0 0 1, 100, []⟩
    [.alloc 1 16]

/-! ### Basic arithmetic facts about the alignment helpers. -/

theorem align8down_le (n : Nat) : align8down n ≤ n :=
  Nat.div_mul_le_self n 8

theorem align8down_dvd (n : Nat) : 8 ∣ align8down n :=
  Dvd.intro_left (n / 8) rfl

theorem align8down_of_dvd {n : Nat} (h : 8 ∣ n) : align8down n = n :=
  Nat.div_mul_cancel h

theorem align8down_mono {m n : Nat} (h : m ≤ n) : align8down m ≤ align8down n :=
  Nat.mul_le_mul_right 8 (Nat.div_le_div_right h)

theorem min_double_min (a m : Nat) : min (2 * min a m) m = min (2 * a) m := by
  rcases Nat.le_total a m with h | h
  · rw [Nat.min_eq_left h]
  · rw [Nat.min_eq_right h, Nat.min_eq_right (by omega),
      Nat.min_eq_right (by omega)]

/-- `AllocateMemorySize` yields a multiple of 8 whenever the previous block
size, both policy bounds and the request are multiples of 8. -/
theorem allocateMemorySize_dvd {pol : Option AllocationPolicy}
    {last n : Nat} (hlast : 8 ∣ last)
    (hstart : 8 ∣ (pol.getD {}).start_block_size)
    (hmax : 8 ∣ (pol.getD {}).max_block_size) (hn : 8 ∣ n) :
    8 ∣ AllocateMemorySize pol last n := by
  have h24 : (8 : Nat) ∣ kBlockHeaderSize := by decide
  unfold AllocateMemorySize
  have hbase : 8 ∣ (if last ≠ 0 then
      min (2 * last) (pol.getD {}).max_block_size
      else (pol.getD {}).start_block_size) := by
    split
    · rcases Nat.le_total (2 * last) (pol.getD {}).max_block_size with h | h
      · rw [Nat.min_eq_left h]; exact Dvd.dvd.mul_left hlast 2
      · rw [Nat.min_eq_right h]; exact hmax
    · exact hstart
  rcases Nat.le_total (if last ≠ 0 then
      min (2 * last) (pol.getD {}).max_block_size
      else (pol.getD {}).start_block_size) (kBlockHeaderSize + n) with h | h
  · rw [Nat.max_eq_right h]; exact Nat.dvd_add h24 hn
  · rw [Nat.max_eq_left h]; exact hbase

/-! ### C10: the shard lookup fallback. -/

/-- C10: in a sequential execution, once `GetSerialArenaFallback` has
created and pushed a shard owned by identity token `me`, every subsequent
call with the same `me` returns that same shard and leaves the shard list
unchanged; each identity owns at most one shard between resets (the count
of shards owned by `me` after a call is `max 1` of the count before). -/
theorem getSerialArenaFallback_stable (A : ThreadSafeArena) (me fresh : Nat) :
    ((A.GetSerialArenaFallback me fresh).2.1.GetSerialArenaFallback me
        (A.GetSerialArenaFallback me fresh).2.2)
      = A.GetSerialArenaFallback me fresh
    ∧ (A.GetSerialArenaFallback me fresh).1.owner = me
    ∧ (A.GetSerialArenaFallback me fresh).1
        ∈ (A.GetSerialArenaFallback me fresh).2.1.threads
    ∧ (A.GetSerialArenaFallback me fresh).2.1.threads.countP
          (fun sa => sa.owner == me)
        = max 1 (A.threads.countP (fun sa => sa.owner == me)) := by
  unfold ThreadSafeArena.GetSerialArenaFallback
  cases h : A.threads.find? (fun sa => sa.owner == me) with
  | some sa =>
    have hmem : sa ∈ A.threads := List.mem_of_find?_eq_some h
    have hpred := List.find?_some h
    have howner : sa.owner = me := by simpa using hpred
    have hpos : 0 < A.threads.countP (fun sa => sa.owner == me) :=
      List.countP_pos_iff.mpr ⟨sa, hmem, hpred⟩
    simp only [h]
    refine ⟨by trivial, howner, hmem, ?_⟩
    have : max 1 (A.threads.countP (fun sa => sa.owner == me))
        = A.threads.countP (fun sa => sa.owner == me) :=
      Nat.max_eq_right hpos
    omega
  | none =>
    have hzero : A.threads.countP (fun sa => sa.owner == me) = 0 :=
      List.countP_eq_zero.mpr (fun sa hsa => List.find?_eq_none.mp h sa hsa)
    simp only [h]
    set nsa := SerialArena.New
      (AllocateMemory A.alloc_policy 0 kSerialArenaSize fresh).1 me with hnsa
    have hp : (fun (sa : SerialArena) => sa.owner == me) nsa = true := by
      simp [hnsa, SerialArena.New]
    have hfind : List.find? (fun sa => sa.owner == me) (nsa :: A.threads)
        = some nsa := by
      apply List.find?_cons_of_pos
      exact hp
    have hcount : List.countP (fun sa => sa.owner == me) (nsa :: A.threads)
        = List.countP (fun sa => sa.owner == me) A.threads + 1 := by
      apply List.countP_cons_of_pos
      exact hp
    refine ⟨?_, by simp [hnsa, SerialArena.New], List.mem_cons_self _ _, ?_⟩
    · simp only [hfind]
    · rw [hcount, hzero]
      decide

/-! ### C6: acceptance of a user-supplied initial block. -/

/-- C6 (amended): `InitializeFrom` installs the supplied memory as the
user-owned initial block if and only if it is non-null and large enough to
hold a block header plus a shard.  Pointer alignment is not part of the
installation condition (it is only debug-asserted), so misaligned memory is
installed rather than ignored. -/
theorem initializeFrom_install_condition (addr size tcOwner : Nat) :
    ((ThreadSafeArena.empty.InitializeFrom addr size tcOwner).userOwned = true
      ↔ (addr ≠ 0 ∧ kBlockHeaderSize + kSerialArenaSize ≤ size))
    ∧ ((ThreadSafeArena.empty.InitializeFrom addr size tcOwner).threads ≠ []
      ↔ (addr ≠ 0 ∧ kBlockHeaderSize + kSerialArenaSize ≤ size)) := by
  unfold ThreadSafeArena.InitializeFrom ThreadSafeArena.SetInitialBlock
    ThreadSafeArena.Init ThreadSafeArena.empty
  by_cases h : addr ≠ 0 ∧ kBlockHeaderSize + kSerialArenaSize ≤ size
  · simp [h]
  · simp [h]

/-- C6 counterexample: the misaligned non-null address 4 with a
sufficiently large size is installed as the user-owned initial block, not
silently ignored. -/
theorem initializeFrom_installs_misaligned_block :
    (ThreadSafeArena.empty.InitializeFrom 4 96 1).userOwned = true
    ∧ (ThreadSafeArena.empty.InitializeFrom 4 96 1).threads ≠ []
    ∧ 4 % 8 ≠ 0 := by decide

/-! ### C7: the installed cleanup boundary. -/

/-- C7 (amended): installing the initial block of a shard sets `limit_` to
the aligned high boundary `base + (size & ~7)`, which is 8-byte aligned and
within the block; installing a growth block sets `limit_` to `base + size`
(arena.cc:167), which coincides with the aligned boundary only because the
computed size is a multiple of 8, which in turn requires the previous
block's size, the policy bounds and the request to be multiples of 8. -/
theorem installed_block_limit (mem : Memory) (owner : Nat) (s : SerialArena)
    (n fresh : Nat) (pol : Option AllocationPolicy)
    (h8last : 8 ∣ s.head.size)
    (h8start : 8 ∣ (pol.getD {}).start_block_size)
    (h8max : 8 ∣ (pol.getD {}).max_block_size) (h8n : 8 ∣ n) :
    ((SerialArena.New mem owner).limitOfs = align8down mem.size
      ∧ 8 ∣ (SerialArena.New mem owner).limitOfs
      ∧ (SerialArena.New mem owner).limitOfs ≤ mem.size)
    ∧ (((s.AllocateNewBlock n pol fresh).1).limitOfs
          = ((s.AllocateNewBlock n pol fresh).1).head.size
      ∧ 8 ∣ ((s.AllocateNewBlock n pol fresh).1).head.size
      ∧ ((s.AllocateNewBlock n pol fresh).1).limitOfs
          = align8down ((s.AllocateNewBlock n pol fresh).1).head.size) := by
  have hdvd : 8 ∣ AllocateMemorySize pol s.head.size n :=
    allocateMemorySize_dvd h8last h8start h8max h8n
  refine ⟨⟨rfl, align8down_dvd mem.size, align8down_le mem.size⟩, ?_, ?_, ?_⟩
  · rfl
  · simpa [SerialArena.AllocateNewBlock, AllocateMemory] using hdvd
  · have : ((s.AllocateNewBlock n pol fresh).1).head.size
        = AllocateMemorySize pol s.head.size n := rfl
    simp only [SerialArena.AllocateNewBlock, AllocateMemory]
    exact (align8down_of_dvd hdvd).symm

/-- C7 witness: the theorem applied to a concrete shard and policy. -/
theorem installed_block_limit_witness :
    8 ∣ sUserA.head.size
    ∧ (((SerialArena.New ⟨16, 100⟩ 1).limitOfs = align8down (96 : Nat)
      ∧ 8 ∣ (SerialArena.New ⟨16, 100⟩ 1).limitOfs
      ∧ (SerialArena.New ⟨16, 100⟩ 1).limitOfs ≤ (100 : Nat))
    ∧ (((sUserA.AllocateNewBlock 48 none 77).1).limitOfs
          = ((sUserA.AllocateNewBlock 48 none 77).1).head.size
      ∧ 8 ∣ ((sUserA.AllocateNewBlock 48 none 77).1).head.size
      ∧ ((sUserA.AllocateNewBlock 48 none 77).1).limitOfs
          = align8down ((sUserA.AllocateNewBlock 48 none 77).1).head.size)) := by
  refine ⟨by decide, ?_⟩
  have h := installed_block_limit ⟨16, 100⟩ 1 sUserA 48 77 none
    (by decide) (by decide) (by decide) (by decide)
  simpa [align8down] using h

/-- C7 counterexample: growing from a block of size 2049 (reachable via a
user-supplied initial block of that size) installs a block of size 4098 and
sets `limit_` to `base + 4098`, which is neither the aligned high boundary
`base + 4096` nor 8-byte aligned. -/
theorem growth_block_limit_not_aligned :
    sMisA.limitOfs = 4098
    ∧ sMisA.head.size = 4098
    ∧ align8down sMisA.head.size = 4096
    ∧ sMisA.limitOfs ≠ align8down sMisA.head.size
    ∧ ¬ 8 ∣ sMisA.limitOfs := by decide

/-! ### C2: the geometric growth ladder. -/

/-- Closed form of the ladder: starting from a block of size
`min (2^j * start) max`, growing once per request keeps the sizes on the
ladder as long as every request (plus header) fits the doubled size. -/
theorem growSeq_closed (pol : AllocationPolicy)
    (hsm : pol.start_block_size ≤ pol.max_block_size)
    (hpos : 0 < pol.start_block_size) :
    ∀ (reqs : List Nat) (j : Nat) (s : SerialArena) (fresh : Nat),
      s.head.size = min (2 ^ j * pol.start_block_size) pol.max_block_size →
      (∀ i, i < reqs.length →
        kBlockHeaderSize + reqs.getD i 0
          ≤ min (2 ^ (j + i + 1) * pol.start_block_size)
              pol.max_block_size) →
      ((growSeq pol s reqs fresh).1).head.size
        = min (2 ^ (j + reqs.length) * pol.start_block_size)
            pol.max_block_size := by
  intro reqs
  induction reqs with
  | nil =>
    intro j s fresh hs _
    simpa [growSeq] using hs
  | cons r rs ih =>
    intro j s fresh hs hfit
    have hne : s.head.size ≠ 0 := by
      rw [hs]
      have h1 : 0 < 2 ^ j * pol.start_block_size :=
        Nat.mul_pos (Nat.pos_pow_of_pos j (by omega)) hpos
      have h2 : 0 < pol.max_block_size := Nat.lt_of_lt_of_le hpos hsm
      omega
    have hr : kBlockHeaderSize + r
        ≤ min (2 ^ (j + 1) * pol.start_block_size) pol.max_block_size := by
      have := hfit 0 (by simp)
      simpa using this
    have hstep : ((s.AllocateNewBlock r (some pol) fresh).1).head.size
        = min (2 ^ (j + 1) * pol.start_block_size) pol.max_block_size := by
      show AllocateMemorySize (some pol) s.head.size r = _
      simp only [AllocateMemorySize, Option.getD_some]
      rw [if_pos hne, hs, min_double_min]
      have h2 : 2 * (2 ^ j * pol.start_block_size)
          = 2 ^ (j + 1) * pol.start_block_size := by ring
      rw [h2]
      exact Nat.max_eq_left hr
    have hrun : growSeq pol s (r :: rs) fresh
        = growSeq pol (s.AllocateNewBlock r (some pol) fresh).1 rs
            (s.AllocateNewBlock r (some pol) fresh).2 := by
      simp [growSeq]
    rw [hrun]
    have hfit' : ∀ i, i < rs.length →
        kBlockHeaderSize + rs.getD i 0
          ≤ min (2 ^ (j + 1 + i + 1) * pol.start_block_size)
              pol.max_block_size := by
      intro i hi
      have := hfit (i + 1) (by simpa using Nat.succ_lt_succ hi)
      have hidx : (r :: rs).getD (i + 1) 0 = rs.getD i 0 := by simp
      have hexp : j + (i + 1) + 1 = j + 1 + i + 1 := by omega
      rw [hidx, hexp] at this
      exact this
    have := ih (j + 1) (s.AllocateNewBlock r (some pol) fresh).1
      (s.AllocateNewBlock r (some pol) fresh).2 hstep hfit'
    rw [this]
    have hexp : j + 1 + rs.length = j + (rs.length + 1) := by omega
    rw [hexp]
    rfl

/-- C2 (amended): whenever a shard grows, the new block's size is
`min (2 * last_block_size, max_block_size)` when a previous block exists
(always the case inside a shard) and `start_block_size` otherwise (the
shard-creation call passes `last_size = 0`), then raised to at least
`block_header + requested`; consequently, the `k`-th new block of a shard
whose initial block has size `start_block_size` has size
`min (2^k * start_block_size, max_block_size)` provided every request so
far (plus header) fit the doubled size — the uncorrected claim fails when
an oversized request raises an intermediate block, since later doublings
compound the raise (see the counterexample). -/
theorem growth_block_size_policy (pol : AllocationPolicy)
    (s₀ : SerialArena) (reqs : List Nat) (fresh : Nat)
    (hsm : pol.start_block_size ≤ pol.max_block_size)
    (hpos : 0 < pol.start_block_size)
    (hinit : s₀.head.size = pol.start_block_size)
    (hfit : ∀ i, i < reqs.length →
      kBlockHeaderSize + reqs.getD i 0
        ≤ min (2 ^ (i + 1) * pol.start_block_size) pol.max_block_size) :
    (∀ (s : SerialArena) (n f : Nat), s.head.size ≠ 0 →
      ((s.AllocateNewBlock n (some pol) f).1).head.size
        = max (min (2 * s.head.size) pol.max_block_size)
            (kBlockHeaderSize + n))
    ∧ (∀ n : Nat, AllocateMemorySize (some pol) 0 n
        = max pol.start_block_size (kBlockHeaderSize + n))
    ∧ ((growSeq pol s₀ reqs fresh).1).head.size
        = min (2 ^ reqs.length * pol.start_block_size)
            pol.max_block_size := by
  refine ⟨?_, ?_, ?_⟩
  · intro s n f hne
    show AllocateMemorySize (some pol) s.head.size n = _
    simp only [AllocateMemorySize, Option.getD_some]
    rw [if_pos hne]
  · intro n
    simp [AllocateMemorySize]
  · have hinit' : s₀.head.size
        = min (2 ^ 0 * pol.start_block_size) pol.max_block_size := by
      rw [hinit, pow_zero, one_mul, Nat.min_eq_left hsm]
    have hfit' : ∀ i, i < reqs.length →
        kBlockHeaderSize + reqs.getD i 0
          ≤ min (2 ^ (0 + i + 1) * pol.start_block_size)
              pol.max_block_size := by
      intro i hi
      have hexp : 0 + i + 1 = i + 1 := by omega
      rw [hexp]
      exact hfit i hi
    have := growSeq_closed pol hsm hpos reqs 0 s₀ fresh hinit' hfit'
    simpa using this

/-- C2 witness: the theorem applied to the default policy, a shard whose
initial block has size 256, and two fitting 8-byte requests: the second new
block has size `min (2^2 * 256, 8192) = 1024`. -/
theorem growth_block_size_policy_witness :
    (256 : Nat) ≤ 8192 ∧ (0 : Nat) < 256
    ∧ (SerialArena.New ⟨8, 256⟩ 1).head.size = 256
    ∧ ((∀ (s : SerialArena) (n f : Nat), s.head.size ≠ 0 →
        ((s.AllocateNewBlock n (some {}) f).1).head.size
          = max (min (2 * s.head.size)
              (({} : AllocationPolicy)).max_block_size)
            (kBlockHeaderSize + n))
      ∧ (∀ n : Nat, AllocateMemorySize (some {}) 0 n
          = max (({} : AllocationPolicy)).start_block_size
              (kBlockHeaderSize + n))
      ∧ ((growSeq {} (SerialArena.New ⟨8, 256⟩ 1) [8, 8] 50).1).head.size
          = min (2 ^ 2 * 256) 8192) := by
  refine ⟨by decide, by decide, by decide, ?_⟩
  have h := growth_block_size_policy {} (SerialArena.New ⟨8, 256⟩ 1) [8, 8] 50
    (by decide) (by decide) (by decide) (by decide)
  exact h

/-- C2 counterexample: with the default policy (start 256, max 8192), a
1000-byte request raises the first new block to 1024; the next new block,
triggered by an 8-byte request, then has size `min (2*1024, 8192) = 2048`,
not the claimed `min (2^2 * 256, 8192) = 1024` adjusted to fit the request. -/
theorem growth_ladder_fails_after_raised_block :
    sPolA.blocks.map Block.size = [2048, 1024, 256]
    ∧ sPolA.head.size
        ≠ max (min (2 ^ 2 * 256) 8192) (kBlockHeaderSize + 8) := by
  constructor
  · decide
  · decide

/-! ### C5: the policy survives `Reset`. -/

/-- On a freshly installed shard, carving out the policy record cannot
fail as long as the aligned block boundary leaves room for the header, the
shard and the record. -/
theorem maybeAllocateAligned_new_some (mem : Memory) (owner : Nat)
    (h : kBlockHeaderSize + kSerialArenaSize + kAPSize ≤ align8down mem.size) :
    (SerialArena.New mem owner).MaybeAllocateAligned kAPSize
      = some ((mem.id, kBlockHeaderSize + kSerialArenaSize),
          { SerialArena.New mem owner with
              ptrOfs := kBlockHeaderSize + kSerialArenaSize + kAPSize }) := by
  unfold SerialArena.MaybeAllocateAligned SerialArena.New
  rw [if_pos h]

/-- `InitializeWithPolicy` always succeeds in installing the policy: the
result holds the policy by value, carries over `checkFailed`, records the
flag, accepts the block exactly when it is non-null and at least
`kMinimumSize`, always ends with one shard, and does not depend on the
prior region state except through `checkFailed`. -/
theorem initializeWithPolicy_spec (A : ThreadSafeArena) (addr size : Nat)
    (rc : Bool) (pol : AllocationPolicy) (tc fresh : Nat) :
    ((A.InitializeWithPolicy addr size rc pol tc fresh).1).alloc_policy
        = some pol
    ∧ ((A.InitializeWithPolicy addr size rc pol tc fresh).1).checkFailed
        = A.checkFailed
    ∧ ((A.InitializeWithPolicy addr size rc pol tc fresh).1).recordAllocs = rc
    ∧ (((A.InitializeWithPolicy addr size rc pol tc fresh).1).userOwned = true
        ↔ (addr ≠ 0 ∧ kBlockHeaderSize + kSerialArenaSize + kAPSize ≤ size))
    ∧ ((A.InitializeWithPolicy addr size rc pol tc fresh).1).threads ≠ []
    ∧ (A.InitializeWithPolicy addr size rc pol tc fresh).1
        = { (ThreadSafeArena.empty.InitializeWithPolicy
              addr size rc pol tc fresh).1 with checkFailed := A.checkFailed }
    := by
  unfold ThreadSafeArena.InitializeWithPolicy ThreadSafeArena.SetInitialBlock
    ThreadSafeArena.Init
  dsimp only []
  by_cases hacc : addr ≠ 0 ∧ kBlockHeaderSize + kSerialArenaSize + kAPSize ≤ size
  · have hlim : kBlockHeaderSize + kSerialArenaSize + kAPSize
        ≤ align8down size := by
      have h128 : align8down (kBlockHeaderSize + kSerialArenaSize + kAPSize)
          = kBlockHeaderSize + kSerialArenaSize + kAPSize := by decide
      calc kBlockHeaderSize + kSerialArenaSize + kAPSize
          = align8down (kBlockHeaderSize + kSerialArenaSize + kAPSize) :=
            h128.symm
        _ ≤ align8down size := align8down_mono hacc.2
    rw [if_pos hacc]
    dsimp only []
    simp [hacc, ThreadSafeArena.empty,
      maybeAllocateAligned_new_some ⟨addr, size⟩ tc hlim]
  · have hsz : kBlockHeaderSize + kSerialArenaSize + kAPSize
        ≤ align8down (AllocateMemorySize (some pol) 0
            (kBlockHeaderSize + kSerialArenaSize + kAPSize)) := by
      have h152 : kBlockHeaderSize
            + (kBlockHeaderSize + kSerialArenaSize + kAPSize)
          ≤ AllocateMemorySize (some pol) 0
            (kBlockHeaderSize + kSerialArenaSize + kAPSize) := by
        simp [AllocateMemorySize]
      have h152a : align8down (kBlockHeaderSize
            + (kBlockHeaderSize + kSerialArenaSize + kAPSize))
          = kBlockHeaderSize
            + (kBlockHeaderSize + kSerialArenaSize + kAPSize) := by decide
      have := align8down_mono h152
      rw [h152a] at this
      omega
    rw [if_neg hacc]
    simp only [AllocateMemory]
    simp [hacc, ThreadSafeArena.empty,
      maybeAllocateAligned_new_some
        ⟨fresh, AllocateMemorySize (some pol) 0
          (kBlockHeaderSize + kSerialArenaSize + kAPSize)⟩ tc hsz]

/-- C5: for every region constructed with an `AllocationPolicy`, `Reset`
copies the policy out by value before freeing and re-installs it, so after
`Reset` every policy field (`start_block_size`, `max_block_size`,
`block_alloc`, `block_dealloc`, `metrics_collector`) equals its original
value; the fatal sink is never hit in the process. -/
theorem reset_preserves_policy (A : ThreadSafeArena) (p : AllocationPolicy)
    (tc fresh : Nat) (hp : A.alloc_policy = some p) :
    ((A.Reset tc fresh).2.2.1).alloc_policy = some p
    ∧ ((A.Reset tc fresh).2.2.1).checkFailed = A.checkFailed := by
  unfold ThreadSafeArena.Reset
  rw [hp]
  rcases hF : A.FreeOp with ⟨freeEvs, space₀, mem⟩
  dsimp only []
  cases hu : A.userOwned with
  | false =>
    have h := initializeWithPolicy_spec A 0 0 A.recordAllocs p tc fresh
    exact ⟨h.1, h.2.1⟩
  | true =>
    have h := initializeWithPolicy_spec A mem.id mem.size
      A.recordAllocs p tc fresh
    exact ⟨h.1, h.2.1⟩

/-- C5 witness: the theorem applied to a concrete region carrying the
default policy. -/
theorem reset_preserves_policy_witness :
    wPolA.arena.alloc_policy = some {}
    ∧ (((wPolA.arena.Reset 1 wPolA.fresh).2.2.1).alloc_policy = some ({} : AllocationPolicy)
      ∧ ((wPolA.arena.Reset 1 wPolA.fresh).2.2.1).checkFailed
          = wPolA.arena.checkFailed) :=
  ⟨by decide, reset_preserves_policy wPolA.arena {} 1 wPolA.fresh (by decide)⟩

/-! ### C8: what `Reset` leaves behind. -/

/-- Overwriting `checkFailed` with the value it already has is the
identity. -/
theorem setCheckFailed_self (X : ThreadSafeArena) (h : X.checkFailed = false) :
    { X with checkFailed := false } = X := by
  cases X
  simp only [] at h
  rw [← h]

/-- C8 (amended): `Reset` preserves the policy and the user-owned bit and
re-initializes the region exactly as a fresh construction from the retained
initial block would; the result is `Active` (at least one shard) if and
only if a policy is attached or the initial block is user-owned — a region
with no policy and no user-owned block is reset to the shard-less `Fresh`
state (`Init(false)`, arena.cc:350), not to `Active`. -/
theorem reset_reinitializes (A : ThreadSafeArena) (tc fresh : Nat)
    (hcf : A.checkFailed = false)
    (huo : A.userOwned = true →
      ((A.FreeOp).2.2.id ≠ 0
       ∧ kBlockHeaderSize + kSerialArenaSize
           + (if A.alloc_policy.isSome then kAPSize else 0)
         ≤ (A.FreeOp).2.2.size)) :
    (((A.Reset tc fresh).2.2.1).threads = []
        ↔ (A.alloc_policy = none ∧ A.userOwned = false))
    ∧ ((A.Reset tc fresh).2.2.1).alloc_policy = A.alloc_policy
    ∧ ((A.Reset tc fresh).2.2.1).userOwned = A.userOwned
    ∧ (match A.alloc_policy with
       | some p =>
          (A.Reset tc fresh).2.2.1
            = (ThreadSafeArena.empty.InitializeWithPolicy
                (if A.userOwned then (A.FreeOp).2.2.id else 0)
                (if A.userOwned then (A.FreeOp).2.2.size else 0)
                A.recordAllocs p tc fresh).1
       | none =>
          (A.Reset tc fresh).2.2.1
            = (if A.userOwned then
                ThreadSafeArena.empty.InitializeFrom (A.FreeOp).2.2.id
                  (A.FreeOp).2.2.size tc
               else ThreadSafeArena.empty)) := by
  obtain ⟨ra, uo, ap, ts, cf⟩ := A
  simp only [] at hcf
  subst hcf
  cases ap with
  | none =>
    cases uo with
    | false =>
      unfold ThreadSafeArena.Reset
      rcases hF : ThreadSafeArena.FreeOp ⟨ra, false, none, ts, false⟩
        with ⟨freeEvs, space₀, mem⟩
      dsimp only []
      simp [ThreadSafeArena.Init, ThreadSafeArena.empty]
    | true =>
      have huo' := huo rfl
      rcases hF : ThreadSafeArena.FreeOp ⟨ra, true, none, ts, false⟩
        with ⟨freeEvs, space₀, mem⟩
      rw [hF] at huo'
      have hacc : mem.id ≠ 0 ∧ kBlockHeaderSize + kSerialArenaSize ≤ mem.size := by
        refine ⟨huo'.1, ?_⟩
        have := huo'.2
        simpa using this
      unfold ThreadSafeArena.Reset
      rw [hF]
      dsimp only []
      unfold ThreadSafeArena.InitializeFrom ThreadSafeArena.Init
        ThreadSafeArena.SetInitialBlock ThreadSafeArena.empty
      dsimp only []
      rw [if_pos hacc]
      simp [hacc.1, hacc.2]
  | some p =>
    cases uo with
    | true =>
      have huo' := huo rfl
      rcases hF : ThreadSafeArena.FreeOp ⟨ra, true, some p, ts, false⟩
        with ⟨freeEvs, space₀, mem⟩
      rw [hF] at huo'
      have hacc : mem.id ≠ 0
          ∧ kBlockHeaderSize + kSerialArenaSize + kAPSize ≤ mem.size := by
        refine ⟨huo'.1, ?_⟩
        have := huo'.2
        simpa using this
      have spec := initializeWithPolicy_spec
        ⟨ra, true, some p, ts, false⟩ mem.id mem.size ra p tc fresh
      unfold ThreadSafeArena.Reset
      rw [hF]
      dsimp only []
      refine ⟨iff_of_false spec.2.2.2.2.1 (by simp), spec.1,
        spec.2.2.2.1.mpr hacc, ?_⟩
      have h2 := (initializeWithPolicy_spec ThreadSafeArena.empty
        mem.id mem.size ra p tc fresh).2.1
      exact spec.2.2.2.2.2.trans (setCheckFailed_self _ h2)
    | false =>
      have spec := initializeWithPolicy_spec
        ⟨ra, false, some p, ts, false⟩ 0 0 ra p tc fresh
      unfold ThreadSafeArena.Reset
      rcases hF : ThreadSafeArena.FreeOp ⟨ra, false, some p, ts, false⟩
        with ⟨freeEvs, space₀, mem⟩
      dsimp only []
      have hnot : ¬ ((ThreadSafeArena.InitializeWithPolicy
          ⟨ra, false, some p, ts, false⟩ 0 0 ra p tc fresh).1.userOwned
            = true) := by
        intro hx
        exact ((spec.2.2.2.1.mp hx).1) rfl
      have hfalse : (ThreadSafeArena.InitializeWithPolicy
          ⟨ra, false, some p, ts, false⟩ 0 0 ra p tc fresh).1.userOwned
            = false := by
        cases hB : (ThreadSafeArena.InitializeWithPolicy
            ⟨ra, false, some p, ts, false⟩ 0 0 ra p tc fresh).1.userOwned
        · rfl
        · exact absurd hB hnot
      refine ⟨iff_of_false spec.2.2.2.2.1 (by simp), spec.1, hfalse, ?_⟩
      have h2 := (initializeWithPolicy_spec ThreadSafeArena.empty
        0 0 ra p tc fresh).2.1
      exact spec.2.2.2.2.2.trans (setCheckFailed_self _ h2)

/-- C8 witness: the theorem applied to a concrete policy-carrying region. -/
theorem reset_reinitializes_witness :
    wPolA.arena.checkFailed = false
    ∧ ((((wPolA.arena.Reset 1 wPolA.fresh).2.2.1).threads = []
        ↔ (wPolA.arena.alloc_policy = none ∧ wPolA.arena.userOwned = false))
      ∧ ((wPolA.arena.Reset 1 wPolA.fresh).2.2.1).alloc_policy
          = wPolA.arena.alloc_policy
      ∧ ((wPolA.arena.Reset 1 wPolA.fresh).2.2.1).userOwned
          = wPolA.arena.userOwned
      ∧ (match wPolA.arena.alloc_policy with
         | some p =>
            (wPolA.arena.Reset 1 wPolA.fresh).2.2.1
              = (ThreadSafeArena.empty.InitializeWithPolicy
                  (if wPolA.arena.userOwned then (wPolA.arena.FreeOp).2.2.id
                   else 0)
                  (if wPolA.arena.userOwned then (wPolA.arena.FreeOp).2.2.size
                   else 0)
                  wPolA.arena.recordAllocs p 1 wPolA.fresh).1
         | none =>
            (wPolA.arena.Reset 1 wPolA.fresh).2.2.1
              = (if wPolA.arena.userOwned then
                  ThreadSafeArena.empty.InitializeFrom
                    (wPolA.arena.FreeOp).2.2.id
                    (wPolA.arena.FreeOp).2.2.size 1
                 else ThreadSafeArena.empty))) :=
  ⟨by decide, reset_reinitializes wPolA.arena 1 wPolA.fresh (by decide)
    (by decide)⟩

/-- C8 counterexample: a region with no policy and no user-owned block that
is `Active` (one lazily created shard) is reset to a region with no shards
at all, so `Reset` is not an `Active → Active` transition there. -/
theorem reset_default_region_loses_all_shards :
    wDefA.arena.threads.length = 1
    ∧ ((wDefA.arena.Reset 1 wDefA.fresh).2.2.1).threads = [] := by
  constructor
  · decide
  · decide

/-! ### Equations and supporting facts about the free loops. -/

theorem serial_freeLoop_cons (b b' : Block) (rest : List Block) :
    SerialArena.freeLoop b (b' :: rest)
      = (Event.dealloc b.id b.size :: (SerialArena.freeLoop b' rest).1,
         b.size + (SerialArena.freeLoop b' rest).2.1,
         (SerialArena.freeLoop b' rest).2.2) := rfl

theorem tsa_freeLoop_cons (sa : SerialArena) (rest : List SerialArena)
    (mem : Memory) :
    ThreadSafeArena.freeLoop (sa :: rest) mem
      = ((if mem.id ≠ 0 then [Event.dealloc mem.id mem.size] else [])
           ++ (sa.FreeOp).1
           ++ (ThreadSafeArena.freeLoop rest (sa.FreeOp).2.2).1,
         (if mem.id ≠ 0 then mem.size else 0) + (sa.FreeOp).2.1
           + (ThreadSafeArena.freeLoop rest (sa.FreeOp).2.2).2.1,
         (ThreadSafeArena.freeLoop rest (sa.FreeOp).2.2).2.2) := rfl

theorem memsOf_cons (sa : SerialArena) (rest : List SerialArena) :
    memsOf (sa :: rest) = sa.mems ++ memsOf rest := rfl

theorem mems_ne_nil (sa : SerialArena) : sa.mems ≠ [] := by
  simp [SerialArena.mems, SerialArena.blocks]

theorem serial_freeLoop_events (b : Block) (bs : List Block) :
    (SerialArena.freeLoop b bs).1
      = ((b :: bs).dropLast).map (fun x => Event.dealloc x.id x.size) := by
  induction bs generalizing b with
  | nil => rfl
  | cons b' rest ih =>
    rw [serial_freeLoop_cons, List.dropLast_cons₂, List.map_cons, ih b']

theorem serial_freeLoop_bytes (b : Block) (bs : List Block) :
    (SerialArena.freeLoop b bs).2.1 + ((SerialArena.freeLoop b bs).2.2).size
      = ((b :: bs).map Block.size).sum := by
  induction bs generalizing b with
  | nil => simp [SerialArena.freeLoop]
  | cons b' rest ih =>
    rw [serial_freeLoop_cons]
    have := ih b'
    simp only [List.map_cons, List.sum_cons] at this ⊢
    omega

theorem serial_freeLoop_retained (b : Block) (bs : List Block) :
    (SerialArena.freeLoop b bs).2.2 = memOfBlock (bs.getLastD b) := by
  induction bs generalizing b with
  | nil => rfl
  | cons b' rest ih =>
    rw [serial_freeLoop_cons, List.getLastD_cons]
    exact ih b'

theorem getLastD_map {α β : Type} (f : α → β) :
    ∀ (l : List α) (d : α), (l.map f).getLastD (f d) = f (l.getLastD d) := by
  intro l
  induction l with
  | nil => intro d; rfl
  | cons a l' ih =>
    intro d
    rw [List.map_cons, List.getLastD_cons, List.getLastD_cons]
    exact ih a

theorem getLastD_append {α : Type} :
    ∀ (L R : List α) (d : α), (L ++ R).getLastD d = R.getLastD (L.getLastD d) := by
  intro L
  induction L with
  | nil => intro R d; rfl
  | cons a L' ih =>
    intro R d
    rw [List.cons_append, List.getLastD_cons, List.getLastD_cons]
    exact ih R a

theorem serial_mems_getLastD (sa : SerialArena) (m : Memory) :
    sa.mems.getLastD m = memOfBlock (sa.tail.getLastD sa.head) := by
  have h : sa.mems = memOfBlock sa.head :: sa.tail.map memOfBlock := rfl
  rw [h, List.getLastD_cons]
  exact getLastD_map memOfBlock sa.tail sa.head

theorem serial_freeOp_retained_mem (sa : SerialArena) :
    (sa.FreeOp).2.2 ∈ sa.mems := by
  show (SerialArena.freeLoop sa.head sa.tail).2.2 ∈ sa.mems
  rw [serial_freeLoop_retained]
  have : sa.tail.getLastD sa.head ∈ sa.head :: sa.tail := by
    rw [← List.getLast_eq_getLastD]
    exact List.getLast_mem (by simp)
  exact List.mem_map_of_mem memOfBlock this

theorem tsa_freeLoop_retained :
    ∀ (shards : List SerialArena) (m : Memory),
      (ThreadSafeArena.freeLoop shards m).2.2 = (memsOf shards).getLastD m := by
  intro shards
  induction shards with
  | nil => intro m; rfl
  | cons sa rest ih =>
    intro m
    rw [tsa_freeLoop_cons, ih, memsOf_cons, getLastD_append]
    congr 1
    rw [serial_mems_getLastD]
    exact serial_freeLoop_retained sa.head sa.tail

theorem tsa_freeLoop_bytes :
    ∀ (shards : List SerialArena) (m : Memory),
      (∀ mm ∈ memsOf shards, mm.id ≠ 0) → (m.id = 0 → m.size = 0) →
      (ThreadSafeArena.freeLoop shards m).2.1
          + ((ThreadSafeArena.freeLoop shards m).2.2).size
        = m.size + ((memsOf shards).map Memory.size).sum := by
  intro shards
  induction shards with
  | nil =>
    intro m _ _
    simp [ThreadSafeArena.freeLoop, memsOf]
  | cons sa rest ih =>
    intro m hids hm
    rw [tsa_freeLoop_cons]
    have hsa : (sa.FreeOp).2.1 + ((sa.FreeOp).2.2).size
        = ((sa.mems).map Memory.size).sum := by
      rw [SerialArena.mems, SerialArena.blocks, List.map_map]
      exact serial_freeLoop_bytes sa.head sa.tail
    have hmem1 : (sa.FreeOp).2.2 ∈ memsOf (sa :: rest) := by
      rw [memsOf_cons]
      exact List.mem_append_left _ (serial_freeOp_retained_mem sa)
    have hrec := ih (sa.FreeOp).2.2
      (fun mm hmm => hids mm (by rw [memsOf_cons]; exact List.mem_append_right _ hmm))
      (fun h0 => absurd h0 (hids _ hmem1))
    have hpre : (if m.id ≠ 0 then m.size else 0) = m.size := by
      by_cases h0 : m.id = 0
      · rw [if_neg (by simpa using h0), hm h0]
      · rw [if_pos h0]
    rw [memsOf_cons]
    simp only [List.map_append, List.sum_append]
    omega

theorem dropLast_append_left {α : Type} :
    ∀ (L R : List α), R ≠ [] → (L ++ R).dropLast = L ++ R.dropLast := by
  intro L
  induction L with
  | nil => intro R _; rfl
  | cons a L' ih =>
    intro R hR
    have hne : L' ++ R ≠ [] := by
      intro hx
      exact hR (List.append_eq_nil.mp hx).2
    cases hLR : L' ++ R with
    | nil => exact absurd hLR hne
    | cons x xs =>
      rw [List.cons_append, hLR, List.dropLast_cons₂, ← hLR, ih R hR,
        List.cons_append]

theorem tsa_freeLoop_events_mem :
    ∀ (shards : List SerialArena) (m : Memory) (e : Event),
      e ∈ (ThreadSafeArena.freeLoop shards m).1 →
      ∃ mm, e = Event.dealloc mm.id mm.size
        ∧ mm ∈ (m :: memsOf shards).dropLast := by
  intro shards
  induction shards with
  | nil =>
    intro m e he
    simp [ThreadSafeArena.freeLoop] at he
  | cons sa rest ih =>
    intro m e he
    rw [tsa_freeLoop_cons] at he
    have hne : memsOf (sa :: rest) ≠ [] := by
      rw [memsOf_cons]
      intro hx
      exact mems_ne_nil sa (List.append_eq_nil.mp hx).1
    have hdrop : (m :: memsOf (sa :: rest)).dropLast
        = m :: (memsOf (sa :: rest)).dropLast := by
      cases hmm : memsOf (sa :: rest) with
      | nil => exact absurd hmm hne
      | cons x xs => exact List.dropLast_cons₂
    rw [hdrop]
    rcases List.mem_append.mp he with h12 | h3
    · rcases List.mem_append.mp h12 with h1 | h2
      · -- the incoming memory, deallocated first
        refine ⟨m, ?_, List.mem_cons_self _ _⟩
        by_cases h0 : m.id ≠ 0
        · rw [if_pos h0] at h1
          simpa using h1
        · rw [if_neg h0] at h1
          simp at h1
      · -- a non-oldest block of this shard
        rw [show (sa.FreeOp).1 = _ from serial_freeLoop_events sa.head sa.tail]
          at h2
        rcases List.mem_map.mp h2 with ⟨b, hb, rfl⟩
        refine ⟨memOfBlock b, rfl, List.mem_cons_of_mem _ ?_⟩
        rcases hR : memsOf rest with _ | ⟨x, xs⟩
        · rw [memsOf_cons, hR, List.append_nil, SerialArena.mems,
            ← List.map_dropLast]
          exact List.mem_map_of_mem _ hb
        · rw [memsOf_cons, hR, dropLast_append_left _ _ (by simp)]
          refine List.mem_append_left _ ?_
          exact List.mem_map_of_mem memOfBlock
            ((List.dropLast_sublist _).subset hb)
    · -- recursion over the remaining shards
      rcases ih (sa.FreeOp).2.2 e h3 with ⟨mm, hmme, hmm⟩
      refine ⟨mm, hmme, List.mem_cons_of_mem _ ?_⟩
      rcases hR : memsOf rest with _ | ⟨x, xs⟩
      · rw [hR] at hmm
        simp at hmm
      · rw [hR] at hmm
        rw [List.dropLast_cons₂] at hmm
        rw [memsOf_cons, hR, dropLast_append_left _ _ (by simp)]
        rcases List.mem_cons.mp hmm with hmm1 | hmm2
        · subst hmm1
          exact List.mem_append_left _ (serial_freeOp_retained_mem sa)
        · exact List.mem_append_right _ hmm2

/-! ### C4: cleanups run before any deallocation. -/

theorem serialArena_cleanupList_isCleanup (s : SerialArena) :
    ∀ e ∈ s.CleanupList, e.isCleanup = true := by
  intro e he
  unfold SerialArena.CleanupList at he
  rw [List.mem_flatten] at he
  obtain ⟨l, hl, hel⟩ := he
  rw [List.mem_map] at hl
  obtain ⟨b, _, rfl⟩ := hl
  rw [List.mem_map] at hel
  obtain ⟨r, _, rfl⟩ := hel
  rfl

theorem tsa_cleanupList_isCleanup (A : ThreadSafeArena) :
    ∀ e ∈ A.CleanupList, e.isCleanup = true := by
  intro e he
  unfold ThreadSafeArena.CleanupList at he
  rw [List.mem_flatten] at he
  obtain ⟨l, hl, hel⟩ := he
  rw [List.mem_map] at hl
  obtain ⟨sa, _, rfl⟩ := hl
  exact serialArena_cleanupList_isCleanup sa e hel

theorem tsa_freeLoop_not_cleanup (shards : List SerialArena) (m : Memory) :
    ∀ e ∈ (ThreadSafeArena.freeLoop shards m).1, e.isCleanup = false := by
  intro e he
  rcases tsa_freeLoop_events_mem shards m e he with ⟨mm, rfl, _⟩
  rfl

/-- C4: in both `Reset` and `Destroy`, every registered cleanup callback
across every shard is invoked before any block of any shard is
deallocated: the event trace splits into a prefix of cleanup invocations
(the entire `CleanupList`) followed by events none of which is a cleanup
invocation. -/
theorem cleanups_run_before_frees (A : ThreadSafeArena) (tc fresh : Nat) :
    (∃ cs ds, (A.Reset tc fresh).2.1 = cs ++ ds
      ∧ (∀ e ∈ cs, e.isCleanup = true) ∧ (∀ e ∈ ds, e.isCleanup = false))
    ∧ (∃ cs ds, (A.Destroy).2 = cs ++ ds
      ∧ (∀ e ∈ cs, e.isCleanup = true) ∧ (∀ e ∈ ds, e.isCleanup = false)) := by
  have hfree : ∀ e ∈ (A.FreeOp).1, e.isCleanup = false :=
    tsa_freeLoop_not_cleanup A.threads ⟨0, 0⟩
  constructor
  · -- Reset
    unfold ThreadSafeArena.Reset
    rcases hF : A.FreeOp with ⟨freeEvs, space₀, mem⟩
    have hfree' : ∀ e ∈ freeEvs, e.isCleanup = false := by
      intro e he
      apply hfree
      rw [hF]
      exact he
    dsimp only []
    cases hap : A.alloc_policy with
    | some saved =>
      dsimp only []
      refine ⟨A.CleanupList,
        freeEvs
          ++ (if A.userOwned = true then
                (([] : List Event), space₀ + mem.size, mem)
              else ([Event.dealloc mem.id mem.size], space₀ + mem.size,
                (⟨0, 0⟩ : Memory))).1
          ++ (match saved.metrics_collector with
              | some c => [Event.onReset c
                  ((if A.userOwned = true then
                      (([] : List Event), space₀ + mem.size, mem)
                    else ([Event.dealloc mem.id mem.size], space₀ + mem.size,
                      (⟨0, 0⟩ : Memory))).2.1)]
              | none => []),
        by simp only [List.append_assoc], ?_, ?_⟩
      · exact tsa_cleanupList_isCleanup A
      · intro e he
        rcases List.mem_append.mp he with h12 | h3
        · rcases List.mem_append.mp h12 with h1 | h2
          · exact hfree' e h1
          · by_cases hu : A.userOwned = true
            · rw [if_pos hu] at h2
              simp at h2
            · rw [if_neg hu] at h2
              rcases List.mem_singleton.mp h2 with rfl
              rfl
        · cases hm : saved.metrics_collector with
          | some c =>
            rw [hm] at h3
            rcases List.mem_singleton.mp h3 with rfl
            rfl
          | none =>
            rw [hm] at h3
            simp at h3
    | none =>
      dsimp only []
      by_cases hu : A.userOwned = true
      · rw [if_pos hu]
        exact ⟨A.CleanupList, freeEvs, rfl, tsa_cleanupList_isCleanup A,
          hfree'⟩
      · rw [if_neg hu]
        refine ⟨A.CleanupList, freeEvs ++ [Event.dealloc mem.id mem.size],
          by simp only [List.append_assoc], tsa_cleanupList_isCleanup A, ?_⟩
        intro e he
        rcases List.mem_append.mp he with h1 | h2
        · exact hfree' e h1
        · rcases List.mem_singleton.mp h2 with rfl
          rfl
  · -- Destroy
    unfold ThreadSafeArena.Destroy
    rcases hF : A.FreeOp with ⟨freeEvs, space₀, mem⟩
    have hfree' : ∀ e ∈ freeEvs, e.isCleanup = false := by
      intro e he
      apply hfree
      rw [hF]
      exact he
    dsimp only []
    refine ⟨A.CleanupList,
      freeEvs
        ++ (if A.userOwned = true then (([] : List Event), space₀ + mem.size)
            else ([Event.dealloc mem.id mem.size], space₀ + mem.size)).1
        ++ (match A.alloc_policy.bind (fun p => p.metrics_collector) with
            | some c => [Event.onDestroy c
                ((if A.userOwned = true then
                    (([] : List Event), space₀ + mem.size)
                  else ([Event.dealloc mem.id mem.size],
                    space₀ + mem.size)).2)]
            | none => []),
      by simp only [List.append_assoc], tsa_cleanupList_isCleanup A, ?_⟩
    intro e he
    rcases List.mem_append.mp he with h12 | h3
    · rcases List.mem_append.mp h12 with h1 | h2
      · exact hfree' e h1
      · by_cases hu : A.userOwned = true
        · rw [if_pos hu] at h2
          simp at h2
        · rw [if_neg hu] at h2
          rcases List.mem_singleton.mp h2 with rfl
          rfl
    · cases hm : A.alloc_policy.bind (fun p => p.metrics_collector) with
      | some c =>
        rw [hm] at h3
        rcases List.mem_singleton.mp h3 with rfl
        rfl
      | none =>
        rw [hm] at h3
        simp at h3

/-! ### C9: teardown byte totals. -/

theorem getLastD_mem {α : Type} :
    ∀ (l : List α) (d : α), l ≠ [] → l.getLastD d ∈ l := by
  intro l d h
  cases l with
  | nil => exact absurd rfl h
  | cons a t =>
    rw [List.getLastD_cons, ← List.getLast_eq_getLastD]
    exact List.getLast_mem (by simp)

/-- C9: for a region whose initial block is user-owned, the byte total
returned by `Reset` and the byte total passed to `OnDestroy` equal the sum
of the sizes of all blocks held before the operation — including the
user-owned initial block, even though no deallocation event ever carries
that block's address. -/
theorem teardown_totals_include_user_block (A : ThreadSafeArena)
    (tc fresh : Nat)
    (huo : A.userOwned = true)
    (hids : ∀ m ∈ allMems A, m.id ≠ 0)
    (hlast : ∀ m ∈ (allMems A).dropLast,
        m.id ≠ ((allMems A).getLastD ⟨0, 0⟩).id) :
    (A.Reset tc fresh).1 = totalBlockBytes A
    ∧ (A.Destroy).1 = totalBlockBytes A
    ∧ (∀ p c, A.alloc_policy = some p → p.metrics_collector = some c →
        Event.onDestroy c (totalBlockBytes A) ∈ (A.Destroy).2)
    ∧ (∀ i sz, Event.dealloc i sz ∈ (A.Reset tc fresh).2.1 →
        i ≠ ((allMems A).getLastD ⟨0, 0⟩).id) := by
  have hfreeBytes := tsa_freeLoop_bytes A.threads ⟨0, 0⟩ hids (fun _ => rfl)
  have hdealloc : ∀ i sz, Event.dealloc i sz ∈ (A.FreeOp).1 →
      i ≠ ((allMems A).getLastD ⟨0, 0⟩).id := by
    intro i sz he
    rcases tsa_freeLoop_events_mem A.threads ⟨0, 0⟩ _ he with ⟨mm, hmm1, hmm2⟩
    have hi : i = mm.id := by
      injection hmm1
    subst hi
    by_cases hne : allMems A = []
    · rw [show memsOf A.threads = allMems A from rfl, hne] at hmm2
      simp at hmm2
    · have hlastmem : (allMems A).getLastD ⟨0, 0⟩ ∈ allMems A :=
        getLastD_mem _ _ hne
      have hlastid : ((allMems A).getLastD ⟨0, 0⟩).id ≠ 0 :=
        hids _ hlastmem
      have hdrop : ((⟨0, 0⟩ : Memory) :: allMems A).dropLast
          = (⟨0, 0⟩ : Memory) :: (allMems A).dropLast := by
        cases hAM : allMems A with
        | nil => exact absurd hAM hne
        | cons x xs => exact List.dropLast_cons₂
      rw [show memsOf A.threads = allMems A from rfl, hdrop] at hmm2
      rcases List.mem_cons.mp hmm2 with rfl | hmm3
      · intro hcontra
        exact hlastid hcontra.symm
      · exact hlast mm hmm3
  unfold ThreadSafeArena.Reset ThreadSafeArena.Destroy
  rcases hF : A.FreeOp with ⟨freeEvs, space₀, mem⟩
  rw [show ThreadSafeArena.freeLoop A.threads ⟨0, 0⟩ = A.FreeOp from rfl,
    hF] at hfreeBytes
  have hbytes : space₀ + mem.size = totalBlockBytes A := by
    simpa [totalBlockBytes] using hfreeBytes
  have hfree' : ∀ i sz, Event.dealloc i sz ∈ freeEvs →
      i ≠ ((allMems A).getLastD ⟨0, 0⟩).id := by
    intro i sz he
    apply hdealloc i sz
    rw [hF]
    exact he
  rw [huo]
  dsimp only []
  cases hap : A.alloc_policy with
  | some saved =>
    dsimp only []
    refine ⟨hbytes, hbytes, ?_, ?_⟩
    · intro p c hp hc
      have hps : saved = p := by injection hp
      subst hps
      rw [show ((some saved).bind fun p => p.metrics_collector)
          = saved.metrics_collector from rfl, hc, ← hbytes]
      exact List.mem_append_right _ (List.mem_singleton.mpr rfl)
    · intro i sz he
      cases hm : saved.metrics_collector with
      | some c =>
        rw [hm] at he
        rcases List.mem_append.mp he with h123 | h4
        · rcases List.mem_append.mp h123 with h12 | h3
          · rcases List.mem_append.mp h12 with h1 | h2
            · have := tsa_cleanupList_isCleanup A _ h1
              simp [Event.isCleanup] at this
            · exact hfree' i sz h2
          · simp at h3
        · simp at h4
      | none =>
        rw [hm] at he
        rcases List.mem_append.mp he with h123 | h4
        · rcases List.mem_append.mp h123 with h12 | h3
          · rcases List.mem_append.mp h12 with h1 | h2
            · have := tsa_cleanupList_isCleanup A _ h1
              simp [Event.isCleanup] at this
            · exact hfree' i sz h2
          · simp at h3
        · simp at h4
  | none =>
    dsimp only []
    refine ⟨hbytes, hbytes, ?_, ?_⟩
    · intro p c hp _
      exact absurd hp (by simp)
    · intro i sz he
      rcases List.mem_append.mp he with h1 | h2
      · have := tsa_cleanupList_isCleanup A _ h1
        simp [Event.isCleanup] at this
      · exact hfree' i sz h2

/-- C9 witness: the theorem applied to the region of `wUserA`, whose
blocks are the 2048-byte user block and one 4096-byte growth block. -/
theorem teardown_totals_include_user_block_witness :
    (wUserA.arena.userOwned = true
      ∧ (∀ m ∈ allMems wUserA.arena, m.id ≠ 0)
      ∧ (∀ m ∈ (allMems wUserA.arena).dropLast,
          m.id ≠ ((allMems wUserA.arena).getLastD ⟨0, 0⟩).id))
    ∧ ((wUserA.arena.Reset 1 wUserA.fresh).1 = totalBlockBytes wUserA.arena
      ∧ (wUserA.arena.Destroy).1 = totalBlockBytes wUserA.arena
      ∧ (∀ p c, wUserA.arena.alloc_policy = some p →
          p.metrics_collector = some c →
          Event.onDestroy c (totalBlockBytes wUserA.arena)
            ∈ (wUserA.arena.Destroy).2)
      ∧ (∀ i sz, Event.dealloc i sz ∈ (wUserA.arena.Reset 1 wUserA.fresh).2.1 →
          i ≠ ((allMems wUserA.arena).getLastD ⟨0, 0⟩).id)) :=
  ⟨⟨by decide, by decide, by decide⟩,
    teardown_totals_include_user_block wUserA.arena 1 wUserA.fresh
      (by decide) (by decide) (by decide)⟩

/-! ### C1: cleanup ordering and exactly-once invocation. -/

theorem cleanupRun_eq_nodes (b : Block) (h : b.wfC) : b.cleanupRun = b.nodes := by
  obtain ⟨h8, hstart, hhdr⟩ := h
  unfold Block.cleanupRun
  simp only [kCleanupSize, kBlockHeaderSize] at hstart hhdr ⊢
  have hsub : align8down b.size - b.start = 16 * b.nodes.length := by omega
  rw [hsub]
  cases hn : b.nodes with
  | nil => simp
  | cons r rs =>
    rw [if_pos (by simp : 0 < 16 * (r :: rs).length / 16)]
    have hceil : (16 * (r :: rs).length + (16 - 1)) / 16 = (r :: rs).length := by
      omega
    rw [hceil]
    exact List.take_length _

theorem count_flatten_sum {α : Type} [DecidableEq α]
    (ls : List (List α)) (a : α) :
    (ls.flatten).count a = (ls.map (fun l => l.count a)).sum := by
  induction ls with
  | nil => rfl
  | cons l ls' ih =>
    rw [List.flatten_cons, List.count_append, ih, List.map_cons,
      List.sum_cons]

theorem nodeEvent_injective :
    Function.Injective (fun r : CleanupNode => Event.cleanup r.elem r.cleanup) := by
  intro r₁ r₂ h
  cases r₁
  cases r₂
  simpa using h

/-- C1 (amended): for every shard whose blocks all have well-formed cleanup
regions — in particular whenever every installed block size is a multiple
of 8 — `CleanupList` invokes the registered records in exactly the order
newest-block first across blocks and reverse-of-registration within each
block, and each registered record is invoked exactly once (the count of its
invocations equals the count of its registrations).  The uncorrected claim
fails when a growth block's size is not a multiple of 8, which a
user-supplied initial block of unaligned size makes reachable: the single
record of such a block is skipped by the `num > 0` guard (arena.cc:190). -/
theorem cleanupList_reverse_registration (s : SerialArena)
    (h : s.wfCleanup) :
    s.CleanupList
      = (s.blocksSynced.map (fun b =>
          ((b.registrationOrder).reverse).map
            (fun r => Event.cleanup r.elem r.cleanup))).flatten
    ∧ ∀ r : CleanupNode,
        s.CleanupList.count (Event.cleanup r.elem r.cleanup)
          = (s.blocksSynced.map (fun b => b.registrationOrder.count r)).sum := by
  have hrun : ∀ b ∈ s.blocksSynced, b.cleanupRun = b.nodes :=
    fun b hb => cleanupRun_eq_nodes b (h b hb)
  constructor
  · unfold SerialArena.CleanupList
    congr 1
    apply List.map_congr_left
    intro b hb
    rw [hrun b hb, Block.registrationOrder, List.reverse_reverse]
  · intro r
    unfold SerialArena.CleanupList
    rw [count_flatten_sum, List.map_map]
    congr 1
    apply List.map_congr_left
    intro b hb
    simp only [Function.comp_apply]
    rw [hrun b hb, Block.registrationOrder, List.count_reverse]
    exact List.count_map_of_injective _ _ nodeEvent_injective _

/-- C1 witness: the theorem applied to the shard of `wUserA`, which holds
three records across two well-formed blocks; the invocation order is the
newest block's records first, each in reverse registration order. -/
theorem cleanupList_reverse_registration_witness :
    sUserA.wfCleanup
    ∧ (sUserA.CleanupList
        = (sUserA.blocksSynced.map (fun b =>
            ((b.registrationOrder).reverse).map
              (fun r => Event.cleanup r.elem r.cleanup))).flatten
      ∧ ∀ r : CleanupNode,
          sUserA.CleanupList.count (Event.cleanup r.elem r.cleanup)
            = (sUserA.blocksSynced.map
                (fun b => b.registrationOrder.count r)).sum) :=
  ⟨by decide, cleanupList_reverse_registration sUserA (by decide)⟩

/-- C1 counterexample: on a region built over a user block of 2049 bytes,
a 2000-byte allocation installs a growth block of size 4098 and a
subsequent `AddCleanup` registers the record `(7, 9)` in it; `Destroy`
then invokes no cleanup at all — the record is registered but never
invoked, refuting exactly-once invocation. -/
theorem cleanup_skipped_in_misaligned_block :
    sMisB.head.nodes = [⟨7, 9⟩]
    ∧ sMisB.CleanupList = []
    ∧ (wMisB.arena.Destroy).2.filter Event.isCleanup = [] := by
  refine ⟨by decide, by decide, by decide⟩

/-! ### C3: the user-owned initial block is never deallocated. -/

theorem getLastD_append_singleton {α : Type} (L : List α) (x d : α) :
    (L ++ [x]).getLastD d = x := by
  rw [getLastD_append]
  rfl

theorem suffix_through {X Y ms : List Memory} {init : Memory}
    (hXY : X ++ Y = ms ++ [init]) (hY : Y ≠ []) :
    ∃ Z, Y = Z ++ [init] ∧ ms = X ++ Z := by
  have hYd : Y.dropLast ++ [Y.getLast hY] = Y :=
    List.dropLast_append_getLast hY
  rw [← hYd, ← List.append_assoc] at hXY
  obtain ⟨h1, h2⟩ := List.append_inj' hXY (by simp)
  have hlast : Y.getLast hY = init := by
    simpa using h2
  exact ⟨Y.dropLast, by rw [← hlast]; exact hYd.symm, h1.symm⟩

theorem serial_new_mems (mem : Memory) (owner : Nat) :
    (SerialArena.New mem owner).mems = [mem] := rfl

theorem serial_allocAligned_mems (s : SerialArena) (n : Nat)
    (pol : Option AllocationPolicy) (f addr : Nat) (haf : addr < f) :
    (∃ extra, ((s.AllocateAligned n pol f).2.1).mems = extra ++ s.mems
      ∧ ∀ m ∈ extra, addr < m.id)
    ∧ f ≤ (s.AllocateAligned n pol f).2.2 := by
  unfold SerialArena.AllocateAligned
  split
  · exact ⟨⟨[], rfl, by simp⟩, Nat.le_refl f⟩
  · refine ⟨⟨[⟨f, AllocateMemorySize pol s.head.size n⟩], rfl, ?_⟩,
      Nat.le_succ f⟩
    intro m hm
    rcases List.mem_singleton.mp hm with rfl
    exact haf

theorem serial_allocCleanup_mems (s : SerialArena) (n elem fn : Nat)
    (pol : Option AllocationPolicy) (f addr : Nat) (haf : addr < f) :
    (∃ extra, ((s.AllocateAlignedWithCleanup n elem fn pol f).2.1).mems
        = extra ++ s.mems
      ∧ ∀ m ∈ extra, addr < m.id)
    ∧ f ≤ (s.AllocateAlignedWithCleanup n elem fn pol f).2.2 := by
  unfold SerialArena.AllocateAlignedWithCleanup
  split
  · exact ⟨⟨[], rfl, by simp⟩, Nat.le_refl f⟩
  · refine ⟨⟨[⟨f, AllocateMemorySize pol s.head.size (n + kCleanupSize)⟩],
      rfl, ?_⟩, Nat.le_succ f⟩
    intro m hm
    rcases List.mem_singleton.mp hm with rfl
    exact haf

theorem serial_addCleanup_mems (s : SerialArena) (elem fn : Nat)
    (pol : Option AllocationPolicy) (f addr : Nat) (haf : addr < f) :
    (∃ extra, ((s.AddCleanup elem fn pol f).1).mems = extra ++ s.mems
      ∧ ∀ m ∈ extra, addr < m.id)
    ∧ f ≤ (s.AddCleanup elem fn pol f).2 :=
  serial_allocCleanup_mems s 0 elem fn pol f addr haf

theorem withOwner_mems {α : Type} (me addr f : Nat)
    (g : SerialArena → α × SerialArena × Nat)
    (hg : ∀ sa, (∃ extra, ((g sa).2.1).mems = extra ++ sa.mems
        ∧ ∀ m ∈ extra, addr < m.id) ∧ f ≤ (g sa).2.2) :
    ∀ (ts : List SerialArena) (a : α) (ts' : List SerialArena) (f' : Nat),
      withOwner me g ts = some (a, ts', f') →
      f ≤ f' ∧ ∃ X Y extra, memsOf ts = X ++ Y ∧ Y ≠ []
        ∧ memsOf ts' = X ++ (extra ++ Y)
        ∧ ∀ m ∈ extra, addr < m.id := by
  intro ts
  induction ts with
  | nil =>
    intro a ts' f' h
    exact absurd h (by simp [withOwner])
  | cons sa rest ih =>
    intro a ts' f' h
    unfold withOwner at h
    split at h
    · rcases hga : g sa with ⟨av, sav, frv⟩
      rw [hga] at h
      dsimp only [] at h
      simp only [Option.some.injEq, Prod.mk.injEq] at h
      obtain ⟨ha, hts, hf⟩ := h
      obtain ⟨⟨extra, hex, hid⟩, hfsa⟩ := hg sa
      rw [hga] at hex hfsa
      dsimp only [] at hex hfsa
      refine ⟨by rw [← hf]; exact hfsa,
        [], sa.mems ++ memsOf rest, extra, by simp [memsOf_cons], ?_, ?_, hid⟩
      · intro hx
        exact mems_ne_nil sa (List.append_eq_nil.mp hx).1
      · rw [← hts, memsOf_cons, hex, List.nil_append, List.append_assoc]
    · cases hrec : withOwner me g rest with
      | none =>
        rw [hrec] at h
        exact absurd h (by simp)
      | some tup =>
        obtain ⟨a₀, rest', f₀⟩ := tup
        rw [hrec] at h
        dsimp only [] at h
        simp only [Option.some.injEq, Prod.mk.injEq] at h
        obtain ⟨ha, hts, hf⟩ := h
        obtain ⟨hf0, X, Y, extra, hXY, hYne, hXY', hid⟩ :=
          ih a₀ rest' f₀ hrec
        refine ⟨by rw [← hf]; exact hf0,
          sa.mems ++ X, Y, extra, ?_, hYne, ?_, hid⟩
        · rw [memsOf_cons, hXY, List.append_assoc]
        · rw [← hts, memsOf_cons, hXY', List.append_assoc]

theorem dropLast_cons_of_ne_nil {α : Type} (x : α) {L : List α} (h : L ≠ []) :
    (x :: L).dropLast = x :: L.dropLast := by
  cases L with
  | nil => exact absurd rfl h
  | cons a t => exact List.dropLast_cons₂

theorem initializeFrom_accept (A : ThreadSafeArena) (addr size tc : Nat)
    (h : addr ≠ 0 ∧ kBlockHeaderSize + kSerialArenaSize ≤ size) :
    A.InitializeFrom addr size tc
      = { A with
            recordAllocs := false, userOwned := true,
            threads := [SerialArena.New ⟨addr, size⟩ tc] } := by
  unfold ThreadSafeArena.InitializeFrom ThreadSafeArena.Init
    ThreadSafeArena.SetInitialBlock
  dsimp only []
  rw [if_pos h]

theorem suffix_update (addr size : Nat) {X Y ms extra : List Memory}
    (hms : X ++ Y = ms ++ [⟨addr, size⟩]) (hYne : Y ≠ [])
    (hmsid : ∀ m ∈ ms, addr < m.id) (hexid : ∀ m ∈ extra, addr < m.id) :
    ∃ ms', X ++ (extra ++ Y) = ms' ++ [⟨addr, size⟩]
      ∧ ∀ m ∈ ms', addr < m.id := by
  rcases suffix_through hms hYne with ⟨Z, hYZ, hmsZ⟩
  refine ⟨X ++ (extra ++ Z), ?_, ?_⟩
  · rw [hYZ]
    simp [List.append_assoc]
  · intro m hm
    rcases List.mem_append.mp hm with h1 | h23
    · exact hmsid m (by rw [hmsZ]; exact List.mem_append_left _ h1)
    · rcases List.mem_append.mp h23 with h2 | h3
      · exact hexid m h2
      · exact hmsid m (by rw [hmsZ]; exact List.mem_append_right _ h3)

theorem freeOp_events_avoid (A : ThreadSafeArena) (addr size : Nat)
    (h0 : addr ≠ 0)
    (hsuf : ∃ ms, allMems A = ms ++ [⟨addr, size⟩] ∧ ∀ m ∈ ms, addr < m.id) :
    ∀ i sz, Event.dealloc i sz ∈ (A.FreeOp).1 → i ≠ addr := by
  obtain ⟨ms, hms, hmsid⟩ := hsuf
  intro i sz he
  rcases tsa_freeLoop_events_mem A.threads ⟨0, 0⟩ _ he with ⟨mm, hmm1, hmm2⟩
  obtain ⟨hi, -⟩ := Event.dealloc.inj hmm1
  subst hi
  have hAM : ((⟨0, 0⟩ : Memory) :: memsOf A.threads).dropLast
      = (⟨0, 0⟩ : Memory) :: ms := by
    rw [show memsOf A.threads = allMems A from rfl, hms,
      dropLast_cons_of_ne_nil (⟨0, 0⟩ : Memory)
        (show ms ++ [(⟨addr, size⟩ : Memory)] ≠ [] by simp),
      List.dropLast_concat]
  rw [hAM] at hmm2
  rcases List.mem_cons.mp hmm2 with rfl | hmm3
  · exact Ne.symm h0
  · have := hmsid mm hmm3
    omega

theorem tsa_reset_userOwned_noPolicy (A : ThreadSafeArena)
    (tc fresh addr size : Nat)
    (h0 : addr ≠ 0) (hsize : kBlockHeaderSize + kSerialArenaSize ≤ size)
    (hp : A.alloc_policy = none) (huo : A.userOwned = true)
    (hsuf : ∃ ms, allMems A = ms ++ [⟨addr, size⟩] ∧ ∀ m ∈ ms, addr < m.id) :
    (A.Reset tc fresh).2.2.1
        = { A with
              recordAllocs := false, userOwned := true,
              threads := [SerialArena.New ⟨addr, size⟩ tc] }
    ∧ (A.Reset tc fresh).2.2.2 = fresh
    ∧ (∀ i sz, Event.dealloc i sz ∈ (A.Reset tc fresh).2.1 → i ≠ addr) := by
  have hdeall := freeOp_events_avoid A addr size h0 hsuf
  obtain ⟨ms, hms, hmsid⟩ := hsuf
  have hmem : (A.FreeOp).2.2 = (⟨addr, size⟩ : Memory) := by
    show (ThreadSafeArena.freeLoop A.threads ⟨0, 0⟩).2.2 = _
    rw [tsa_freeLoop_retained, show memsOf A.threads = allMems A from rfl,
      hms]
    exact getLastD_append_singleton ms ⟨addr, size⟩ ⟨0, 0⟩
  unfold ThreadSafeArena.Reset
  rcases hF : A.FreeOp with ⟨freeEvs, space₀, mem⟩
  have hdeall' : ∀ i sz, Event.dealloc i sz ∈ freeEvs → i ≠ addr := by
    intro i sz he
    apply hdeall i sz
    rw [hF]
    exact he
  rw [hF] at hmem
  dsimp only [] at hmem
  subst hmem
  rw [hp]
  dsimp only []
  rw [huo]
  refine ⟨?_, ?_, ?_⟩
  · rw [initializeFrom_accept A addr size tc ⟨h0, hsize⟩, hp]
    rfl
  · rfl
  · intro i sz he
    rcases List.mem_append.mp he with h1 | h2
    · have := tsa_cleanupList_isCleanup A _ h1
      simp [Event.isCleanup] at this
    · exact hdeall' i sz h2

theorem initializeWithPolicy_accept (A : ThreadSafeArena) (addr size : Nat)
    (ra : Bool) (policy : AllocationPolicy) (tc fresh : Nat)
    (h0 : addr ≠ 0)
    (hsize : kBlockHeaderSize + kSerialArenaSize + kAPSize ≤ size) :
    A.InitializeWithPolicy addr size ra policy tc fresh
      = ({ A with
            recordAllocs := ra, userOwned := true,
            alloc_policy := some policy,
            threads := [policyShard addr size tc] }, fresh) := by
  have hlim : kBlockHeaderSize + kSerialArenaSize + kAPSize
      ≤ align8down size := by
    have h128 : align8down (kBlockHeaderSize + kSerialArenaSize + kAPSize)
        = kBlockHeaderSize + kSerialArenaSize + kAPSize := by decide
    have hm := align8down_mono hsize
    omega
  unfold ThreadSafeArena.InitializeWithPolicy ThreadSafeArena.Init
    ThreadSafeArena.SetInitialBlock
  dsimp only []
  rw [if_pos ⟨h0, hsize⟩]
  dsimp only []
  rw [maybeAllocateAligned_new_some ⟨addr, size⟩ tc hlim]
  rfl

theorem tsa_reset_userOwned_policy (A : ThreadSafeArena)
    (tc fresh addr size : Nat) (pol : AllocationPolicy)
    (h0 : addr ≠ 0)
    (hsize : kBlockHeaderSize + kSerialArenaSize + kAPSize ≤ size)
    (hp : A.alloc_policy = some pol) (huo : A.userOwned = true)
    (hsuf : ∃ ms, allMems A = ms ++ [⟨addr, size⟩] ∧ ∀ m ∈ ms, addr < m.id) :
    (A.Reset tc fresh).2.2.1
        = { A with
              recordAllocs := A.recordAllocs, userOwned := true,
              alloc_policy := some pol,
              threads := [policyShard addr size tc] }
    ∧ (A.Reset tc fresh).2.2.2 = fresh
    ∧ (∀ i sz, Event.dealloc i sz ∈ (A.Reset tc fresh).2.1 → i ≠ addr) := by
  have hdeall := freeOp_events_avoid A addr size h0 hsuf
  obtain ⟨ms, hms, hmsid⟩ := hsuf
  have hmem : (A.FreeOp).2.2 = (⟨addr, size⟩ : Memory) := by
    show (ThreadSafeArena.freeLoop A.threads ⟨0, 0⟩).2.2 = _
    rw [tsa_freeLoop_retained, show memsOf A.threads = allMems A from rfl,
      hms]
    exact getLastD_append_singleton ms ⟨addr, size⟩ ⟨0, 0⟩
  unfold ThreadSafeArena.Reset
  rcases hF : A.FreeOp with ⟨freeEvs, space₀, mem⟩
  have hdeall' : ∀ i sz, Event.dealloc i sz ∈ freeEvs → i ≠ addr := by
    intro i sz he
    apply hdeall i sz
    rw [hF]
    exact he
  rw [hF] at hmem
  dsimp only [] at hmem
  subst hmem
  rw [hp]
  dsimp only []
  rw [huo]
  rw [if_pos (show (true = true) from rfl)]
  dsimp only []
  refine ⟨?_, ?_, ?_⟩
  · rw [initializeWithPolicy_accept A addr size A.recordAllocs pol tc fresh
      h0 hsize]
  · rw [initializeWithPolicy_accept A addr size A.recordAllocs pol tc fresh
      h0 hsize]
  · cases hc : pol.metrics_collector with
    | none =>
      intro i sz he
      rcases List.mem_append.mp he with h123 | h4
      · rcases List.mem_append.mp h123 with h12 | h3
        · rcases List.mem_append.mp h12 with h1 | h2
          · have := tsa_cleanupList_isCleanup A _ h1
            simp [Event.isCleanup] at this
          · exact hdeall' i sz h2
        · exact absurd h3 (List.not_mem_nil _)
      · exact absurd h4 (List.not_mem_nil _)
    | some c =>
      intro i sz he
      rcases List.mem_append.mp he with h123 | h4
      · rcases List.mem_append.mp h123 with h12 | h3
        · rcases List.mem_append.mp h12 with h1 | h2
          · have := tsa_cleanupList_isCleanup A _ h1
            simp [Event.isCleanup] at this
          · exact hdeall' i sz h2
        · exact absurd h3 (List.not_mem_nil _)
      · exact absurd (List.mem_singleton.mp h4) (by simp)

theorem tsa_destroy_userOwned_avoid (A : ThreadSafeArena)
    (addr size : Nat) (h0 : addr ≠ 0) (huo : A.userOwned = true)
    (hsuf : ∃ ms, allMems A = ms ++ [⟨addr, size⟩] ∧ ∀ m ∈ ms, addr < m.id) :
    ∀ i sz, Event.dealloc i sz ∈ (A.Destroy).2 → i ≠ addr := by
  have hdeall := freeOp_events_avoid A addr size h0 hsuf
  unfold ThreadSafeArena.Destroy
  rcases hF : A.FreeOp with ⟨freeEvs, space₀, mem⟩
  have hdeall' : ∀ i sz, Event.dealloc i sz ∈ freeEvs → i ≠ addr := by
    intro i sz he
    apply hdeall i sz
    rw [hF]
    exact he
  dsimp only []
  rw [huo]
  cases hc : A.alloc_policy.bind (fun p => p.metrics_collector) with
  | none =>
    intro i sz he
    rcases List.mem_append.mp he with h123 | h4
    · rcases List.mem_append.mp h123 with h12 | h3
      · rcases List.mem_append.mp h12 with h1 | h2
        · have := tsa_cleanupList_isCleanup A _ h1
          simp [Event.isCleanup] at this
        · exact hdeall' i sz h2
      · exact absurd h3 (List.not_mem_nil _)
    · exact absurd h4 (List.not_mem_nil _)
  | some c =>
    intro i sz he
    rcases List.mem_append.mp he with h123 | h4
    · rcases List.mem_append.mp h123 with h12 | h3
      · rcases List.mem_append.mp h12 with h1 | h2
        · have := tsa_cleanupList_isCleanup A _ h1
          simp [Event.isCleanup] at this
        · exact hdeall' i sz h2
      · exact absurd h3 (List.not_mem_nil _)
    · exact absurd (List.mem_singleton.mp h4) (by simp)

theorem tsa_alloc_preserves (A : ThreadSafeArena)
    (me n fresh addr size : Nat) (hfr : addr < fresh)
    (hsuf : ∃ ms, allMems A = ms ++ [⟨addr, size⟩] ∧ ∀ m ∈ ms, addr < m.id) :
    (∃ ms, allMems ((A.AllocateAligned me n fresh).2.1)
        = ms ++ [⟨addr, size⟩] ∧ ∀ m ∈ ms, addr < m.id)
    ∧ fresh ≤ (A.AllocateAligned me n fresh).2.2
    ∧ ((A.AllocateAligned me n fresh).2.1).userOwned = A.userOwned
    ∧ ((A.AllocateAligned me n fresh).2.1).alloc_policy = A.alloc_policy := by
  obtain ⟨ms, hms, hmsid⟩ := hsuf
  unfold ThreadSafeArena.AllocateAligned
  dsimp only []
  cases hw : withOwner me
      (fun sa => sa.AllocateAligned (alignUpTo8 n) A.alloc_policy fresh)
      A.threads with
  | some tup =>
    obtain ⟨p, ts', f'⟩ := tup
    dsimp only []
    obtain ⟨hf, X, Y, extra, hXY, hYne, hXY', hexid⟩ :=
      withOwner_mems me addr fresh _
        (fun sa => serial_allocAligned_mems sa (alignUpTo8 n)
          A.alloc_policy fresh addr hfr)
        A.threads p ts' f' hw
    have h1 : X ++ Y = ms ++ [⟨addr, size⟩] := hXY.symm.trans hms
    obtain ⟨ms', hms', hmsid'⟩ := suffix_update addr size h1 hYne hmsid hexid
    refine ⟨⟨ms', ?_, hmsid'⟩, hf, rfl, rfl⟩
    exact hXY'.trans hms'
  | none =>
    simp only [AllocateMemory]
    rcases hsa : (SerialArena.New
        ⟨fresh, AllocateMemorySize A.alloc_policy 0 kSerialArenaSize⟩
          me).AllocateAligned (alignUpTo8 n) A.alloc_policy (fresh + 1)
      with ⟨p₀, sa', f₀⟩
    dsimp only []
    obtain ⟨⟨extra, hex, hexid⟩, hfle⟩ := serial_allocAligned_mems
      (SerialArena.New
        ⟨fresh, AllocateMemorySize A.alloc_policy 0 kSerialArenaSize⟩ me)
      (alignUpTo8 n) A.alloc_policy (fresh + 1) addr (by omega)
    rw [hsa] at hex hfle
    dsimp only [] at hex hfle
    refine ⟨⟨(extra
        ++ [⟨fresh, AllocateMemorySize A.alloc_policy 0 kSerialArenaSize⟩])
        ++ ms, ?_, ?_⟩, by omega, by trivial, by trivial⟩
    · show memsOf (sa' :: A.threads) = _
      rw [memsOf_cons, hex, serial_new_mems,
        show memsOf A.threads = allMems A from rfl, hms]
      simp [List.append_assoc]
    · intro m hm
      rcases List.mem_append.mp hm with h12 | h3
      · rcases List.mem_append.mp h12 with h1 | h2
        · exact hexid m h1
        · rcases List.mem_singleton.mp h2 with rfl
          exact hfr
      · exact hmsid m h3

theorem tsa_allocCleanup_preserves (A : ThreadSafeArena)
    (me n elem fn fresh addr size : Nat) (hfr : addr < fresh)
    (hsuf : ∃ ms, allMems A = ms ++ [⟨addr, size⟩] ∧ ∀ m ∈ ms, addr < m.id) :
    (∃ ms, allMems ((A.AllocateAlignedWithCleanup me n elem fn fresh).2.1)
        = ms ++ [⟨addr, size⟩] ∧ ∀ m ∈ ms, addr < m.id)
    ∧ fresh ≤ (A.AllocateAlignedWithCleanup me n elem fn fresh).2.2
    ∧ ((A.AllocateAlignedWithCleanup me n elem fn fresh).2.1).userOwned
        = A.userOwned
    ∧ ((A.AllocateAlignedWithCleanup me n elem fn fresh).2.1).alloc_policy
        = A.alloc_policy := by
  obtain ⟨ms, hms, hmsid⟩ := hsuf
  unfold ThreadSafeArena.AllocateAlignedWithCleanup
  dsimp only []
  cases hw : withOwner me
      (fun sa => sa.AllocateAlignedWithCleanup (alignUpTo8 n) elem fn
        A.alloc_policy fresh)
      A.threads with
  | some tup =>
    obtain ⟨p, ts', f'⟩ := tup
    dsimp only []
    obtain ⟨hf, X, Y, extra, hXY, hYne, hXY', hexid⟩ :=
      withOwner_mems me addr fresh _
        (fun sa => serial_allocCleanup_mems sa (alignUpTo8 n) elem fn
          A.alloc_policy fresh addr hfr)
        A.threads p ts' f' hw
    have h1 : X ++ Y = ms ++ [⟨addr, size⟩] := hXY.symm.trans hms
    obtain ⟨ms', hms', hmsid'⟩ := suffix_update addr size h1 hYne hmsid hexid
    refine ⟨⟨ms', ?_, hmsid'⟩, hf, rfl, rfl⟩
    exact hXY'.trans hms'
  | none =>
    simp only [AllocateMemory]
    rcases hsa : (SerialArena.New
        ⟨fresh, AllocateMemorySize A.alloc_policy 0 kSerialArenaSize⟩
          me).AllocateAlignedWithCleanup (alignUpTo8 n) elem fn
          A.alloc_policy (fresh + 1)
      with ⟨p₀, sa', f₀⟩
    dsimp only []
    obtain ⟨⟨extra, hex, hexid⟩, hfle⟩ := serial_allocCleanup_mems
      (SerialArena.New
        ⟨fresh, AllocateMemorySize A.alloc_policy 0 kSerialArenaSize⟩ me)
      (alignUpTo8 n) elem fn A.alloc_policy (fresh + 1) addr (by omega)
    rw [hsa] at hex hfle
    dsimp only [] at hex hfle
    refine ⟨⟨(extra
        ++ [⟨fresh, AllocateMemorySize A.alloc_policy 0 kSerialArenaSize⟩])
        ++ ms, ?_, ?_⟩, by omega, by trivial, by trivial⟩
    · show memsOf (sa' :: A.threads) = _
      rw [memsOf_cons, hex, serial_new_mems,
        show memsOf A.threads = allMems A from rfl, hms]
      simp [List.append_assoc]
    · intro m hm
      rcases List.mem_append.mp hm with h12 | h3
      · rcases List.mem_append.mp h12 with h1 | h2
        · exact hexid m h1
        · rcases List.mem_singleton.mp h2 with rfl
          exact hfr
      · exact hmsid m h3

theorem tsa_addCleanup_preserves (A : ThreadSafeArena)
    (me elem fn fresh addr size : Nat) (hfr : addr < fresh)
    (hsuf : ∃ ms, allMems A = ms ++ [⟨addr, size⟩] ∧ ∀ m ∈ ms, addr < m.id) :
    (∃ ms, allMems ((A.AddCleanup me elem fn fresh).1)
        = ms ++ [⟨addr, size⟩] ∧ ∀ m ∈ ms, addr < m.id)
    ∧ fresh ≤ (A.AddCleanup me elem fn fresh).2
    ∧ ((A.AddCleanup me elem fn fresh).1).userOwned = A.userOwned
    ∧ ((A.AddCleanup me elem fn fresh).1).alloc_policy = A.alloc_policy := by
  obtain ⟨ms, hms, hmsid⟩ := hsuf
  unfold ThreadSafeArena.AddCleanup
  cases hw : withOwner me
      (fun sa =>
        let (sa', fr) := sa.AddCleanup elem fn A.alloc_policy fresh
        ((), sa', fr))
      A.threads with
  | some tup =>
    obtain ⟨u, ts', f'⟩ := tup
    dsimp only []
    obtain ⟨hf, X, Y, extra, hXY, hYne, hXY', hexid⟩ :=
      withOwner_mems me addr fresh
        (fun sa =>
          let (sa', fr) := sa.AddCleanup elem fn A.alloc_policy fresh
          ((), sa', fr))
        (fun sa => serial_addCleanup_mems sa elem fn A.alloc_policy fresh
          addr hfr)
        A.threads u ts' f' hw
    have h1 : X ++ Y = ms ++ [⟨addr, size⟩] := hXY.symm.trans hms
    obtain ⟨ms', hms', hmsid'⟩ := suffix_update addr size h1 hYne hmsid hexid
    refine ⟨⟨ms', ?_, hmsid'⟩, hf, rfl, rfl⟩
    exact hXY'.trans hms'
  | none =>
    simp only [AllocateMemory]
    rcases hsa : (SerialArena.New
        ⟨fresh, AllocateMemorySize A.alloc_policy 0 kSerialArenaSize⟩
          me).AddCleanup elem fn A.alloc_policy (fresh + 1)
      with ⟨sa', f₀⟩
    dsimp only []
    obtain ⟨⟨extra, hex, hexid⟩, hfle⟩ := serial_addCleanup_mems
      (SerialArena.New
        ⟨fresh, AllocateMemorySize A.alloc_policy 0 kSerialArenaSize⟩ me)
      elem fn A.alloc_policy (fresh + 1) addr (by omega)
    rw [hsa] at hex hfle
    dsimp only [] at hex hfle
    refine ⟨⟨(extra
        ++ [⟨fresh, AllocateMemorySize A.alloc_policy 0 kSerialArenaSize⟩])
        ++ ms, ?_, ?_⟩, by omega, by trivial, by trivial⟩
    · show memsOf (sa' :: A.threads) = _
      rw [memsOf_cons, hex, serial_new_mems,
        show memsOf A.threads = allMems A from rfl, hms]
      simp [List.append_assoc]
    · intro m hm
      rcases List.mem_append.mp hm with h12 | h3
      · rcases List.mem_append.mp h12 with h1 | h2
        · exact hexid m h1
        · rcases List.mem_singleton.mp h2 with rfl
          exact hfr
      · exact hmsid m h3

theorem step_preserves_InvC3 (addr size : Nat) (h0 : addr ≠ 0)
    (hsize : kBlockHeaderSize + kSerialArenaSize ≤ size)
    (w : World) (op : ArenaOp) (hI : InvC3 addr size w) :
    InvC3 addr size (w.step op) := by
  obtain ⟨huo, hdisj, hfr, hsuf, hev⟩ := hI
  cases op with
  | alloc me n =>
    obtain ⟨hsuf', hf, huo', hp'⟩ :=
      tsa_alloc_preserves w.arena me n w.fresh addr size hfr hsuf
    exact ⟨huo'.trans huo, Or.imp (fun h => hp'.trans h) id hdisj,
      Nat.lt_of_lt_of_le hfr hf, hsuf', hev⟩
  | allocCleanup me n elem fn =>
    obtain ⟨hsuf', hf, huo', hp'⟩ :=
      tsa_allocCleanup_preserves w.arena me n elem fn w.fresh addr size
        hfr hsuf
    exact ⟨huo'.trans huo, Or.imp (fun h => hp'.trans h) id hdisj,
      Nat.lt_of_lt_of_le hfr hf, hsuf', hev⟩
  | addCleanup me elem fn =>
    obtain ⟨hsuf', hf, huo', hp'⟩ :=
      tsa_addCleanup_preserves w.arena me elem fn w.fresh addr size
        hfr hsuf
    exact ⟨huo'.trans huo, Or.imp (fun h => hp'.trans h) id hdisj,
      Nat.lt_of_lt_of_le hfr hf, hsuf', hev⟩
  | reset tc =>
    rcases hpol : w.arena.alloc_policy with _ | pol
    · obtain ⟨hA, hfrEq, hevs⟩ :=
        tsa_reset_userOwned_noPolicy w.arena tc w.fresh addr size h0 hsize
          hpol huo hsuf
      refine ⟨?_, Or.inl ?_, ?_, ?_, ?_⟩
      · show ((w.arena.Reset tc w.fresh).2.2.1).userOwned = true
        rw [hA]
      · show ((w.arena.Reset tc w.fresh).2.2.1).alloc_policy = none
        rw [hA]
        exact hpol
      · show addr < (w.arena.Reset tc w.fresh).2.2.2
        rw [hfrEq]
        exact hfr
      · show ∃ ms, allMems ((w.arena.Reset tc w.fresh).2.2.1)
            = ms ++ [(⟨addr, size⟩ : Memory)] ∧ ∀ m ∈ ms, addr < m.id
        rw [hA]
        exact ⟨[], rfl, by simp⟩
      · intro i sz he
        have he' : Event.dealloc i sz
            ∈ w.events ++ (w.arena.Reset tc w.fresh).2.1 := he
        rcases List.mem_append.mp he' with h1 | h2
        · exact hev i sz h1
        · exact hevs i sz h2
    · have h128 : kBlockHeaderSize + kSerialArenaSize + kAPSize ≤ size :=
        hdisj.resolve_left (by rw [hpol]; simp)
      obtain ⟨hA, hfrEq, hevs⟩ :=
        tsa_reset_userOwned_policy w.arena tc w.fresh addr size pol h0
          h128 hpol huo hsuf
      refine ⟨?_, Or.inr h128, ?_, ?_, ?_⟩
      · show ((w.arena.Reset tc w.fresh).2.2.1).userOwned = true
        rw [hA]
      · show addr < (w.arena.Reset tc w.fresh).2.2.2
        rw [hfrEq]
        exact hfr
      · show ∃ ms, allMems ((w.arena.Reset tc w.fresh).2.2.1)
            = ms ++ [(⟨addr, size⟩ : Memory)] ∧ ∀ m ∈ ms, addr < m.id
        rw [hA]
        exact ⟨[], rfl, by simp⟩
      · intro i sz he
        have he' : Event.dealloc i sz
            ∈ w.events ++ (w.arena.Reset tc w.fresh).2.1 := he
        rcases List.mem_append.mp he' with h1 | h2
        · exact hev i sz h1
        · exact hevs i sz h2

theorem run_preserves_InvC3 (addr size : Nat) (h0 : addr ≠ 0)
    (hsize : kBlockHeaderSize + kSerialArenaSize ≤ size) :
    ∀ (ops : List ArenaOp) (w : World),
      InvC3 addr size w → InvC3 addr size (w.run ops) := by
  intro ops
  induction ops with
  | nil => intro w h; exact h
  | cons op rest ih =>
    intro w h
    exact ih (w.step op) (step_preserves_InvC3 addr size h0 hsize w op h)

theorem init_InvC3 (addr size tc₀ : Nat) (h0 : addr ≠ 0)
    (hsize : kBlockHeaderSize + kSerialArenaSize ≤ size) :
    InvC3 addr size
      ⟨ThreadSafeArena.empty.InitializeFrom addr size tc₀, addr + 1, []⟩ := by
  refine ⟨?_, Or.inl ?_, Nat.lt_succ_self addr, ?_, by simp⟩
  · rw [initializeFrom_accept _ _ _ _ ⟨h0, hsize⟩]
  · rw [initializeFrom_accept _ _ _ _ ⟨h0, hsize⟩]
    rfl
  · rw [initializeFrom_accept _ _ _ _ ⟨h0, hsize⟩]
    exact ⟨[], rfl, by simp⟩

theorem init_InvC3P (addr size tc₀ f₀ : Nat) (ra : Bool)
    (policy : AllocationPolicy) (h0 : addr ≠ 0)
    (hsize : kBlockHeaderSize + kSerialArenaSize + kAPSize ≤ size) :
    InvC3 addr size
      ⟨(ThreadSafeArena.empty.InitializeWithPolicy addr size ra policy tc₀
        f₀).1, addr + 1, []⟩ := by
  refine ⟨?_, Or.inr hsize, Nat.lt_succ_self addr, ?_, by simp⟩
  · rw [initializeWithPolicy_accept _ _ _ _ _ _ _ h0 hsize]
  · rw [initializeWithPolicy_accept _ _ _ _ _ _ _ h0 hsize]
    exact ⟨[], rfl, by simp⟩

theorem tsa_alloc_single_shard (Ar : ThreadSafeArena) (sa : SerialArena)
    (tc n F : Nat) (hth : Ar.threads = [sa]) (how : sa.owner = tc)
    (hfit : sa.ptrOfs + alignUpTo8 n ≤ sa.limitOfs) :
    ((Ar.AllocateAligned tc n F).1).1 = sa.head.id := by
  unfold ThreadSafeArena.AllocateAligned
  dsimp only []
  rw [hth]
  unfold withOwner
  rw [if_pos (show (sa.owner == tc) = true from by simp [how])]
  unfold SerialArena.AllocateAligned
  rw [if_pos hfit]

/-- C3: a region constructed with an accepted user-supplied initial block
at address `addr` — via `InitializeFrom` (no policy attached) or via
`InitializeWithPolicy` (a policy, possibly carrying `block_dealloc`, is
attached) — never hands that block to a deallocator: along any sequence of
allocations, cleanup registrations and resets, no `dealloc` event in the
accumulated trace or in the final destructor's trace carries `addr`, and
after a further `Reset` the single surviving shard holds exactly the user
block, so the next fitting allocation by the resetting thread returns a
pointer inside that same buffer. -/
theorem user_block_never_deallocated (addr size tc₀ tc : Nat)
    (ops : List ArenaOp) (A₀ : ThreadSafeArena) (w : World)
    (h0 : addr ≠ 0)
    (hinit :
      (A₀ = ThreadSafeArena.empty.InitializeFrom addr size tc₀
        ∧ kBlockHeaderSize + kSerialArenaSize ≤ size)
      ∨ (∃ ra policy f₀,
          A₀ = (ThreadSafeArena.empty.InitializeWithPolicy addr size ra
            policy tc₀ f₀).1
          ∧ kBlockHeaderSize + kSerialArenaSize + kAPSize ≤ size))
    (hw : w = World.run ⟨A₀, addr + 1, []⟩ ops) :
    (∀ i sz, Event.dealloc i sz ∈ w.events → i ≠ addr)
    ∧ (∀ i sz, Event.dealloc i sz ∈ (w.arena.Destroy).2 → i ≠ addr)
    ∧ (∃ sa, ((w.arena.Reset tc w.fresh).2.2.1).threads = [sa]
        ∧ sa.head.id = addr ∧ sa.head.size = size ∧ sa.tail = []
        ∧ ∀ n, kBlockHeaderSize + kSerialArenaSize + kAPSize + alignUpTo8 n
            ≤ align8down size →
          (((w.arena.Reset tc w.fresh).2.2.1).AllocateAligned tc n
              (w.arena.Reset tc w.fresh).2.2.2).1.1 = addr) := by
  have hsize : kBlockHeaderSize + kSerialArenaSize ≤ size := by
    rcases hinit with ⟨-, hs⟩ | ⟨-, -, -, -, hs⟩ <;> omega
  have hI0 : InvC3 addr size ⟨A₀, addr + 1, []⟩ := by
    rcases hinit with ⟨hA0, hs⟩ | ⟨ra, policy, f₀, hA0, hs⟩
    · rw [hA0]
      exact init_InvC3 addr size tc₀ h0 hs
    · rw [hA0]
      exact init_InvC3P addr size tc₀ f₀ ra policy h0 hs
  have hI : InvC3 addr size w :=
    hw.symm ▸ run_preserves_InvC3 addr size h0 hsize ops
      ⟨A₀, addr + 1, []⟩ hI0
  obtain ⟨huo, hdisj, hfr, hsuf, hev⟩ := hI
  refine ⟨fun i sz he => hev i sz he, ?_, ?_⟩
  · exact tsa_destroy_userOwned_avoid w.arena addr size h0 huo hsuf
  · rcases hpol : w.arena.alloc_policy with _ | pol
    · obtain ⟨hA, hfrEq, -⟩ :=
        tsa_reset_userOwned_noPolicy w.arena tc w.fresh addr size h0 hsize
          hpol huo hsuf
      refine ⟨SerialArena.New ⟨addr, size⟩ tc, by rw [hA], rfl, rfl, rfl,
        ?_⟩
      intro n hn
      exact tsa_alloc_single_shard _ (SerialArena.New ⟨addr, size⟩ tc)
        tc n _ (by rw [hA]) rfl
        (by
          show kBlockHeaderSize + kSerialArenaSize + alignUpTo8 n
              ≤ align8down size
          simp only [kBlockHeaderSize, kSerialArenaSize, kAPSize] at hn ⊢
          omega)
    · have h128 : kBlockHeaderSize + kSerialArenaSize + kAPSize ≤ size :=
        hdisj.resolve_left (by rw [hpol]; simp)
      obtain ⟨hA, hfrEq, -⟩ :=
        tsa_reset_userOwned_policy w.arena tc w.fresh addr size pol h0
          h128 hpol huo hsuf
      refine ⟨policyShard addr size tc, by rw [hA], rfl, rfl, rfl, ?_⟩
      intro n hn
      exact tsa_alloc_single_shard _ (policyShard addr size tc) tc n _
        (by rw [hA]) rfl
        (by
          show kBlockHeaderSize + kSerialArenaSize + kAPSize + alignUpTo8 n
              ≤ align8down size
          exact hn)

/-- A concrete policy-carrying region over a 2048-byte user block at
address 8: an allocation, a cleanup registration, a reset and another
allocation. -/
def wC3 : World :=
  World.run
    ⟨(ThreadSafeArena.empty.InitializeWithPolicy 8 2048 false {} 1 9).1,
      9, []⟩
    [.alloc 1 100, .addCleanup 1 11 1, .reset 1, .alloc 1 100]

/-- Witness for C3 at the concrete policy-carrying run `wC3`. -/
theorem user_block_never_deallocated_witness :
    ((8 : Nat) ≠ 0)
    ∧ (((ThreadSafeArena.empty.InitializeWithPolicy 8 2048 false {} 1
          9).1 = ThreadSafeArena.empty.InitializeFrom 8 2048 1
        ∧ kBlockHeaderSize + kSerialArenaSize ≤ 2048)
      ∨ (∃ ra policy f₀,
          (ThreadSafeArena.empty.InitializeWithPolicy 8 2048 false {} 1
            9).1 = (ThreadSafeArena.empty.InitializeWithPolicy 8 2048 ra
              policy 1 f₀).1
          ∧ kBlockHeaderSize + kSerialArenaSize + kAPSize ≤ 2048))
    ∧ ((∀ i sz, Event.dealloc i sz ∈ wC3.events → i ≠ 8)
      ∧ (∀ i sz, Event.dealloc i sz ∈ (wC3.arena.Destroy).2 → i ≠ 8)
      ∧ (∃ sa, ((wC3.arena.Reset 1 wC3.fresh).2.2.1).threads = [sa]
          ∧ sa.head.id = 8 ∧ sa.head.size = 2048 ∧ sa.tail = []
          ∧ ∀ n, kBlockHeaderSize + kSerialArenaSize + kAPSize
                + alignUpTo8 n ≤ align8down 2048 →
            (((wC3.arena.Reset 1 wC3.fresh).2.2.1).AllocateAligned 1 n
                (wC3.arena.Reset 1 wC3.fresh).2.2.2).1.1 = 8)) :=
  ⟨by decide, Or.inr ⟨false, {}, 9, rfl, by decide⟩,
   user_block_never_deallocated 8 2048 1 1
     [.alloc 1 100, .addCleanup 1 11 1, .reset 1, .alloc 1 100]
     (ThreadSafeArena.empty.InitializeWithPolicy 8 2048 false {} 1 9).1
     wC3 (by decide)
     (Or.inr ⟨false, {}, 9, rfl, by decide⟩) rfl⟩

end ArenaCc
